import Mathlib

/-!
Verification of the Luau subtyping engine and overload resolver
(`src/Analysis/include/Luau/Subtyping.h`, `src/Analysis/include/Luau/OverloadResolution.h`).

The headers declare the data model (`SubtypingResult`, `SubtypingEnvironment`,
`Subtyping`, `OverloadResolver`) and give one inline body
(`Subtyping::handleTypeFamilyReductionResult`).  Declarations are translated
directly; the missing bodies are modelled from the specification, each marked
`Modelled from the spec:` in its doc comment.
-/

set_option maxHeartbeats 1000000

namespace Luau

/-- Primitive type tags of the data model (spec section 3: nil, boolean, number,
string, thread, buffer, unknown, never, error, any, table-prim). -/
inductive PrimKind where
  | nilTy
  | boolean
  | number
  | string
  | thread
  | buffer
  | unknown
  | never
  | err
  | any
  | tablePrim
deriving DecidableEq, Repr

/-- Singleton values: a boolean literal or a string literal (spec section 3). -/
inductive SingletonVal where
  | bool (b : Bool)
  | str (s : String)
deriving DecidableEq, Repr

mutual
/-- Types, translated from the spec data model (section 3).  The arena interns
type nodes and ids compare structurally, so terms stand for type ids directly.
The variants covered are those exercised by the claims: primitives, singletons,
unions, intersections, functions (parameter pack and return pack) and generics
(identified by a numeric name). -/
inductive Ty where
  | prim : PrimKind → Ty
  | singleton : SingletonVal → Ty
  | union : Ty → Ty → Ty
  | inter : Ty → Ty → Ty
  | func : TyPack → TyPack → Ty
  | generic : Nat → Ty
deriving DecidableEq, Repr

/-- Type packs (spec section 3): a finite ordered sequence of types terminated
by empty or by a variadic of T ("zero or more of T"). -/
inductive TyPack where
  | empty : TyPack
  | cons : Ty → TyPack → TyPack
  | variadic : Ty → TyPack
deriving DecidableEq, Repr
end

mutual
/-- Structural size of a type, used as the termination measure of the engine. -/
def Ty.size : Ty → Nat
  | .prim _ => 1
  | .singleton _ => 1
  | .union a b => a.size + b.size + 1
  | .inter a b => a.size + b.size + 1
  | .func p r => p.size + r.size + 1
  | .generic _ => 1

/-- Structural size of a type pack. -/
def TyPack.size : TyPack → Nat
  | .empty => 1
  | .cons t ts => t.size + ts.size + 1
  | .variadic t => t.size + 1
end

/-- Path components (spec section 4.1).  Only the components produced by the
modelled rules are listed: the pack fields of a function type. -/
inductive PathComponent where
  | args
  | rets
deriving DecidableEq, Repr

/-- A path is an ordered sequence of components (spec section 4.1). -/
abbrev Path := List PathComponent

/-- Variance tag on a reasoning, translated from `SubtypingVariance` in
Subtyping.h. -/
inductive SubtypingVariance where
  | invalid
  | covariant
  | contravariant
  | invariant
deriving DecidableEq, Repr

/-- Translated from `SubtypingReasoning` in Subtyping.h: the paths, relative to
the root subtype and supertype, where subtyping failed, plus a variance tag
(defaulting to covariant). -/
structure SubtypingReasoning where
  subPath : Path := []
  superPath : Path := []
  variance : SubtypingVariance := .covariant
deriving DecidableEq, Repr

/-- Diagnostics (spec section 7).  `uninhabitedTypeFamily` carries the family
instance; the source attaches an empty location, which is opaque here. -/
inductive TypeError where
  | uninhabitedTypeFamily (family : Ty)
deriving DecidableEq, Repr

/-- Translated from `ErrorVec`. -/
abbrev ErrorVec := List TypeError

/-- Translated from `SubtypingResult` in Subtyping.h, with the same field
defaults (`isSubtype = false`, `normalizationTooComplex = false`,
`isCacheable = true`).  The reasoning hash-set is modelled as a list; the
header notes the set may be empty even when `isSubtype` is false. -/
structure SubtypingResult where
  isSubtype : Bool := false
  normalizationTooComplex : Bool := false
  isCacheable : Bool := true
  errors : ErrorVec := []
  reasoning : List SubtypingReasoning := []
deriving DecidableEq, Repr

namespace SubtypingResult

/-- Modelled from the spec: the `success` construction of the result algebra
(spec section 4.2). -/
def success : SubtypingResult := { isSubtype := true }

/-- Modelled from the spec: `andAlso` is logical AND; reasonings are unioned,
`normalizationTooComplex` ORed, `isCacheable` ANDed, errors concatenated
(spec section 4.2). -/
def andAlso (r other : SubtypingResult) : SubtypingResult where
  isSubtype := r.isSubtype && other.isSubtype
  normalizationTooComplex := r.normalizationTooComplex || other.normalizationTooComplex
  isCacheable := r.isCacheable && other.isCacheable
  errors := r.errors ++ other.errors
  reasoning := r.reasoning ++ other.reasoning

/-- Modelled from the spec: `orElse` is logical OR with the same merging policy
as `andAlso` (spec section 4.2). -/
def orElse (r other : SubtypingResult) : SubtypingResult where
  isSubtype := r.isSubtype || other.isSubtype
  normalizationTooComplex := r.normalizationTooComplex || other.normalizationTooComplex
  isCacheable := r.isCacheable && other.isCacheable
  errors := r.errors ++ other.errors
  reasoning := r.reasoning ++ other.reasoning

/-- Modelled from the spec: the n-ary fold `all` (spec section 4.2). -/
def all (rs : List SubtypingResult) : SubtypingResult :=
  rs.foldl andAlso success

/-- Modelled from the spec: the n-ary fold `any` (spec section 4.2). -/
def any (rs : List SubtypingResult) : SubtypingResult :=
  rs.foldl orElse { isSubtype := false }

/-- Modelled from the spec: `negate` flips `isSubtype` only; reasonings,
errors and flags are preserved (spec section 4.2). -/
def negate (r : SubtypingResult) : SubtypingResult :=
  { r with isSubtype := !r.isSubtype }

/-- Modelled from the spec: `withSubPath` prepends a path to the sub side of
every reasoning (spec section 4.2). -/
def withSubPath (r : SubtypingResult) (p : Path) : SubtypingResult :=
  { r with reasoning := r.reasoning.map fun re => { re with subPath := p ++ re.subPath } }

/-- Modelled from the spec: `withSuperPath` prepends a path to the super side
of every reasoning (spec section 4.2). -/
def withSuperPath (r : SubtypingResult) (p : Path) : SubtypingResult :=
  { r with reasoning := r.reasoning.map fun re => { re with superPath := p ++ re.superPath } }

/-- Modelled from the spec: `withBothComponent` prepends one component to both
sides of every reasoning (spec section 4.2). -/
def withBothComponent (r : SubtypingResult) (c : PathComponent) : SubtypingResult :=
  { r with reasoning := r.reasoning.map fun re =>
      { re with subPath := c :: re.subPath, superPath := c :: re.superPath } }

end SubtypingResult

/-- Modelled from the spec: flipping variance is a local operation
(spec section 4.3, Variance). -/
def flipVariance : SubtypingVariance → SubtypingVariance
  | .covariant => .contravariant
  | .contravariant => .covariant
  | v => v

/-- Modelled from the spec: the variance tag on produced reasonings is adjusted
when a comparison is performed contravariantly (spec section 4.3, Variance). -/
def SubtypingResult.withFlippedVariance (r : SubtypingResult) : SubtypingResult :=
  { r with reasoning := r.reasoning.map fun re => { re with variance := flipVariance re.variance } }

/-- Translated from `SubtypingEnvironment::GenericBounds` in Subtyping.h:
tentative lower- and upper-bound sets (modelled as lists) for an unbound
generic. -/
structure GenericBounds where
  lowerBound : List Ty := []
  upperBound : List Ty := []
deriving DecidableEq, Repr

/-- Translated from `SubtypingEnvironment` in Subtyping.h: tentative mappings
from generics to their bounds (the `mappedGenerics` map, keyed by the generic's
identity).  The ephemeral cache is not consulted by any claim and is omitted. -/
structure SubtypingEnvironment where
  mappedGenerics : List (Nat × GenericBounds) := []
deriving DecidableEq, Repr

/-- Lookup in the mapped-generics association list (the model of the
`DenseHashMap` keyed by the generic's identity). -/
def lookupBounds : List (Nat × GenericBounds) → Nat → Option GenericBounds
  | [], _ => none
  | p :: ps, g => if p.1 = g then some p.2 else lookupBounds ps g

/-- Modelled from the spec: a generic is flexible exactly when it is in the
environment's mapped set, and rigid otherwise (spec section 3, Generic). -/
def SubtypingEnvironment.isFlexible (env : SubtypingEnvironment) (g : Nat) : Bool :=
  (lookupBounds env.mappedGenerics g).isSome

/-- Modelled from the spec: look up the tentative bounds recorded for a
generic, empty if none were recorded. -/
def SubtypingEnvironment.boundsOf (env : SubtypingEnvironment) (g : Nat) : GenericBounds :=
  (lookupBounds env.mappedGenerics g).getD {}

/-- Insertion of an upper bound into the entry of one generic of the
mapped-generics association list. -/
def insertUpperBound : List (Nat × GenericBounds) → Nat → Ty → List (Nat × GenericBounds)
  | [], _, _ => []
  | p :: ps, g, t =>
    if p.1 = g then (p.1, { p.2 with upperBound := t :: p.2.upperBound }) :: ps
    else p :: insertUpperBound ps g t

/-- Insertion of a lower bound into the entry of one generic of the
mapped-generics association list. -/
def insertLowerBound : List (Nat × GenericBounds) → Nat → Ty → List (Nat × GenericBounds)
  | [], _, _ => []
  | p :: ps, g, t =>
    if p.1 = g then (p.1, { p.2 with lowerBound := t :: p.2.lowerBound }) :: ps
    else p :: insertLowerBound ps g t

/-- Modelled from the spec: record a type into the upper-bound set of a mapped
generic (spec section 4.3, Generics: `G ≤ super` records `super` into G's
upper-bound set). -/
def SubtypingEnvironment.recordUpperBound (env : SubtypingEnvironment) (g : Nat) (t : Ty) :
    SubtypingEnvironment :=
  { mappedGenerics := insertUpperBound env.mappedGenerics g t }

/-- Modelled from the spec: record a type into the lower-bound set of a mapped
generic (spec section 4.3, Generics: `sub ≤ G` records `sub` into G's
lower-bound set). -/
def SubtypingEnvironment.recordLowerBound (env : SubtypingEnvironment) (g : Nat) (t : Ty) :
    SubtypingEnvironment :=
  { mappedGenerics := insertLowerBound env.mappedGenerics g t }

/-- Modelled from the spec: `Subtyping::bindGeneric` (declared in Subtyping.h).
If the sub side is a flexible generic the super type is recorded as an upper
bound; otherwise if the super side is a flexible generic the sub type is
recorded as a lower bound; otherwise binding fails (spec section 4.3,
Generics).  The C++ mutates the environment and returns `bool`; here the
updated environment is returned on success. -/
def Subtyping.bindGeneric (env : SubtypingEnvironment) (subTy superTy : Ty) :
    Option SubtypingEnvironment :=
  match subTy, superTy with
  | .generic g, _ =>
    if env.isFlexible g then some (env.recordUpperBound g superTy) else none
  | _, .generic g =>
    if env.isFlexible g then some (env.recordLowerBound g subTy) else none
  | _, _ => none

/-- Derivation bookkeeping for a single query: the list of generic-bound
records made during the derivation (generic id, recorded type, `true` for an
upper bound), and whether the `seenTypes` co-induction short-circuit fired.
This mirrors the spec's notions "a mapped-generic entry was read or written
during its derivation" (spec section 4.2) and "a pair already in the
`seenTypes` set" (spec section 4.3); it carries no information back into the
judgement itself. -/
structure SubtypingTrace where
  binds : List (Nat × Ty × Bool) := []
  seenHit : Bool := false
deriving DecidableEq, Repr

/-- Merge of derivation bookkeeping along result merges. -/
def SubtypingTrace.merge (t u : SubtypingTrace) : SubtypingTrace :=
  ⟨t.binds ++ u.binds, t.seenHit || u.seenHit⟩

/-- Modelled from the spec: the result produced when the external limits
collaborator expires: non-subtype, `normalizationTooComplex = true`, and not
cacheable so the persistent cache is not written (spec sections 4.3
"Recursion and limits" and 5). -/
def tooComplexResult : SubtypingResult :=
  { isSubtype := false, normalizationTooComplex := true, isCacheable := false }

/-- Tag test for `any` and `error`, the two error-suppressing tops (spec
section 3, Invariants). -/
def isAnyOrError : Ty → Bool
  | .prim .any => true
  | .prim .err => true
  | _ => false

/-- String singletons are subtypes of `string`, boolean singletons of
`boolean` (spec section 4.3, shape table). -/
def singletonPrimMatch : SingletonVal → PrimKind → Bool
  | .str _, .string => true
  | .bool _, .boolean => true
  | _, _ => false

mutual
/-- Modelled from the spec: `Subtyping::isCovariantWith` on a pair of type ids
(declared in Subtyping.h; spec section 4.3).  `fuel` is the step budget of the
external limits collaborator, checked and decremented on every recursive
entry; on expiry the engine unwinds with `tooComplexResult` (spec section 4.3
"Recursion and limits" and section 5): every rule checks its recursive
results for the expiry flag and, when set, discards the partial outcome and
propagates the bare too-complex result, so no partial result escapes an
expired derivation.  The short-circuits then run in the
spec's order: identical ids, `any`/`error` on either side, `never` on the left
or `unknown` on the right, then the `seenTypes` co-induction check (success,
not cacheable).  Otherwise the pair is inserted into the seen set for the
recursive calls (removed on exit, hence the set is a parameter) and the
shape-directed rules apply in the order of the spec's table: sub union
(`all`), super union (`any`), sub intersection (`any`), super intersection
(`all`), flexible generics (record a bound, success, not cacheable; rigid
generics compare by identity only), functions (parameters contravariant,
returns covariant), primitives by tag equality, singletons, and a non-subtype
fallback for the remaining shape pairs.  Alongside the result the derivation
bookkeeping is returned. -/
def isCovariantWith (env : SubtypingEnvironment) (fuel : Nat)
    (seen : List (Ty × Ty)) (subTy superTy : Ty) : SubtypingResult × SubtypingTrace :=
  match fuel with
  | 0 => (tooComplexResult, {})
  | fuel + 1 =>
    if subTy = superTy then (.success, {})
    else if isAnyOrError subTy || isAnyOrError superTy then (.success, {})
    else if subTy = .prim .never then (.success, {})
    else if superTy = .prim .unknown then (.success, {})
    else if (subTy, superTy) ∈ seen then
      ({ SubtypingResult.success with isCacheable := false }, { seenHit := true })
    else
      let seen' := (subTy, superTy) :: seen
      match subTy, superTy with
      | .union x y, c =>
        let q1 := isCovariantWith env fuel seen' x c
        if q1.1.normalizationTooComplex then (tooComplexResult, {})
        else
          let q2 := isCovariantWith env fuel seen' y c
          if q2.1.normalizationTooComplex then (tooComplexResult, {})
          else (.all [q1.1, q2.1], q1.2.merge q2.2)
      | a, .union x y =>
        let q1 := isCovariantWith env fuel seen' a x
        if q1.1.normalizationTooComplex then (tooComplexResult, {})
        else
          let q2 := isCovariantWith env fuel seen' a y
          if q2.1.normalizationTooComplex then (tooComplexResult, {})
          else (.any [q1.1, q2.1], q1.2.merge q2.2)
      | .inter x y, c =>
        let q1 := isCovariantWith env fuel seen' x c
        if q1.1.normalizationTooComplex then (tooComplexResult, {})
        else
          let q2 := isCovariantWith env fuel seen' y c
          if q2.1.normalizationTooComplex then (tooComplexResult, {})
          else (.any [q1.1, q2.1], q1.2.merge q2.2)
      | a, .inter x y =>
        let q1 := isCovariantWith env fuel seen' a x
        if q1.1.normalizationTooComplex then (tooComplexResult, {})
        else
          let q2 := isCovariantWith env fuel seen' a y
          if q2.1.normalizationTooComplex then (tooComplexResult, {})
          else (.all [q1.1, q2.1], q1.2.merge q2.2)
      | .generic g, b =>
        if env.isFlexible g then
          ({ SubtypingResult.success with isCacheable := false }, { binds := [(g, b, true)] })
        else ({ isSubtype := false }, {})
      | a, .generic g =>
        if env.isFlexible g then
          ({ SubtypingResult.success with isCacheable := false }, { binds := [(g, a, false)] })
        else ({ isSubtype := false }, {})
      | .func p1 r1, .func p2 r2 =>
        let qa := packIsCovariantWith env fuel seen' p2 p1
        if qa.1.normalizationTooComplex then (tooComplexResult, {})
        else
          let qb := packIsCovariantWith env fuel seen' r1 r2
          if qb.1.normalizationTooComplex then (tooComplexResult, {})
          else
            ((qa.1.withFlippedVariance.withBothComponent .args).andAlso
              (qb.1.withBothComponent .rets), qa.2.merge qb.2)
      | .prim p, .prim q => ({ isSubtype := p == q }, {})
      | .singleton s, .prim p => ({ isSubtype := singletonPrimMatch s p }, {})
      | .singleton s, .singleton t => ({ isSubtype := s == t }, {})
      | _, _ => ({ isSubtype := false }, {})

/-- Modelled from the spec: `Subtyping::isCovariantWith` on a pair of type
packs (declared in Subtyping.h; spec sections 3 and 4.3), with the same step
budget and unwinding discipline as the type case.  A variadic tail denotes zero or more of
its element type: matching heads are compared pairwise, a variadic on the
super side absorbs remaining sub elements, a variadic on the sub side is
consumed element-wise by remaining super heads, and empty matches empty or a
super variadic; all other arity combinations are non-subtype.  The seen set
applies to type pairs only and is passed through. -/
def packIsCovariantWith (env : SubtypingEnvironment) (fuel : Nat)
    (seen : List (Ty × Ty)) (subP superP : TyPack) : SubtypingResult × SubtypingTrace :=
  match fuel with
  | 0 => (tooComplexResult, {})
  | fuel + 1 =>
    match subP, superP with
    | .empty, .empty => (.success, {})
    | .empty, .variadic _ => (.success, {})
    | .cons t ts, .cons u us =>
      let q1 := isCovariantWith env fuel seen t u
      if q1.1.normalizationTooComplex then (tooComplexResult, {})
      else
        let q2 := packIsCovariantWith env fuel seen ts us
        if q2.1.normalizationTooComplex then (tooComplexResult, {})
        else (q1.1.andAlso q2.1, q1.2.merge q2.2)
    | .cons t ts, .variadic v =>
      let q1 := isCovariantWith env fuel seen t v
      if q1.1.normalizationTooComplex then (tooComplexResult, {})
      else
        let q2 := packIsCovariantWith env fuel seen ts (.variadic v)
        if q2.1.normalizationTooComplex then (tooComplexResult, {})
        else (q1.1.andAlso q2.1, q1.2.merge q2.2)
    | .variadic v, .cons u us =>
      let q1 := isCovariantWith env fuel seen v u
      if q1.1.normalizationTooComplex then (tooComplexResult, {})
      else
        let q2 := packIsCovariantWith env fuel seen (.variadic v) us
        if q2.1.normalizationTooComplex then (tooComplexResult, {})
        else (q1.1.andAlso q2.1, q1.2.merge q2.2)
    | .variadic v, .variadic w =>
      let q := isCovariantWith env fuel seen v w
      if q.1.normalizationTooComplex then (tooComplexResult, {}) else q
    | _, _ => ({ isSubtype := false }, {})
end

/-- Translated from the `Subtyping` struct in Subtyping.h: the persistent
result cache (`resultCache`, modelled as an association list) and the limits
collaborator (`TypeCheckLimits`, modelled as an optional step budget; `none`
imposes no budget). -/
structure Subtyping where
  limits : Option Nat := none
  resultCache : List ((Ty × Ty) × SubtypingResult) := []
deriving DecidableEq, Repr

/-- An engine with no step budget and an empty persistent cache. -/
def Subtyping.fresh : Subtyping := {}

/-- The step budget handed to the engine for one query: the limits
collaborator's budget when one is imposed; otherwise the structural size of
the query, which is proven sufficient for the recursion to run to completion
(`isCovariantWith_fuel_stable`), so `none` behaves as an unlimited budget. -/
def Subtyping.stepBudget (s : Subtyping) (n : Nat) : Nat :=
  match s.limits with
  | some k => k
  | none => n

/-- Modelled from the spec: the top-level `Subtyping::isSubtype(TypeId,
TypeId)` entry (spec section 4.3, Entry): create a fresh environment, call
`isCovariantWith`, and write the result to the persistent result cache keyed
by the pair exactly when it is cacheable. -/
def Subtyping.isSubtype (s : Subtyping) (subTy superTy : Ty) :
    SubtypingResult × Subtyping :=
  let res := (isCovariantWith {} (s.stepBudget (subTy.size + superTy.size)) [] subTy superTy).1
  let s' :=
    if res.isCacheable then
      { s with resultCache := ((subTy, superTy), res) :: s.resultCache }
    else s
  (res, s')

/-- Modelled from the spec: the top-level `Subtyping::isSubtype(TypePackId,
TypePackId)` entry.  The persistent cache is keyed by type-id pairs only, so
pack queries do not write it. -/
def Subtyping.isSubtypePack (s : Subtyping) (subP superP : TyPack) :
    SubtypingResult × Subtyping :=
  ((packIsCovariantWith {} (s.stepBudget (subP.size + superP.size)) [] subP superP).1, s)

/-- Translated from `FamilyGraphReductionResult` as consumed by
`Subtyping::handleTypeFamilyReductionResult` in Subtyping.h: the reduced
types, blocked types and blocked packs reported by the external type-family
reducer. -/
structure FamilyGraphReductionResult where
  reducedTypes : List Ty := []
  blockedTypes : List Ty := []
  blockedPacks : List TyPack := []
deriving DecidableEq, Repr

/-- The `never` built-in (`builtinTypes->neverType`). -/
def neverType : Ty := .prim .never

/-- Translated from the inline body of
`Subtyping::handleTypeFamilyReductionResult` (Subtyping.h lines 216-231).
The external `reduceFamilies` call is a parameter: `family` is the interned
family instance and `result` what the reducer returned for it.  If the
reducer reports any blocked types or blocked packs, the function returns
`never` together with an `UninhabitedTypeFamily` diagnostic; otherwise, if the
family is among the reduced types it is returned unchanged with no errors;
otherwise `never` is returned with no errors. -/
def Subtyping.handleTypeFamilyReductionResult (family : Ty)
    (result : FamilyGraphReductionResult) : Ty × ErrorVec :=
  if result.blockedTypes.length ≠ 0 ∨ result.blockedPacks.length ≠ 0 then
    (neverType, [.uninhabitedTypeFamily family])
  else if result.reducedTypes.contains family then
    (family, [])
  else
    (neverType, [])

/-- Translated from `OverloadResolver::Analysis` in OverloadResolution.h. -/
inductive Analysis where
  | Ok
  | TypeIsNotAFunction
  | ArityMismatch
  | OverloadIsNonviable
deriving DecidableEq, Repr

/-- Modelled from the spec: the candidate overloads of a callee, in source
order — the intersection's element order for an intersection of functions,
otherwise the single function (spec section 4.4). -/
def candidates : Ty → List Ty
  | .inter a b => candidates a ++ candidates b
  | t => [t]

/-- Number of explicit (required) elements of a pack (spec section 3: arity is
the number of explicit elements). -/
def TyPack.headCount : TyPack → Nat
  | .empty => 0
  | .cons _ ts => 1 + ts.headCount
  | .variadic _ => 0

/-- Whether a pack ends in a variadic tail. -/
def TyPack.hasVariadicTail : TyPack → Bool
  | .empty => false
  | .cons _ ts => ts.hasVariadicTail
  | .variadic _ => true

/-- Modelled from the spec: arity agreement between an argument pack and a
parameter pack — a mismatch is too few provided arguments for the required
parameters (unless the arguments end in a variadic tail), or too many
arguments when the parameters have no variadic tail (spec section 4.4). -/
def arityMatches (args params : TyPack) : Bool :=
  (args.headCount ≥ params.headCount || args.hasVariadicTail) &&
    (args.headCount ≤ params.headCount || params.hasVariadicTail)

/-- Modelled from the spec: the per-candidate classification of
`OverloadResolver` (spec section 4.4): a non-function is
*TypeIsNotAFunction*; a function whose parameter arity disagrees with the
argument pack is *ArityMismatch*; a function for which the subtype test
`argPack ≤ paramPack` fails is *OverloadIsNonviable*; otherwise *Ok*. -/
def classifyOverload (args : TyPack) (fn : Ty) : Analysis :=
  match fn with
  | .func params _ =>
    if !arityMatches args params then .ArityMismatch
    else if (Subtyping.fresh.isSubtypePack args params).1.isSubtype then .Ok
    else .OverloadIsNonviable
  | _ => .TypeIsNotAFunction

/-- Modelled from the spec: when no candidate is *Ok*, the most informative
failure is surfaced — nonviable first, then arity mismatch, then
non-function (spec section 4.4). -/
def bestFailure (args : TyPack) (cs : List Ty) : Analysis :=
  if cs.any fun c => classifyOverload args c == .OverloadIsNonviable then .OverloadIsNonviable
  else if cs.any fun c => classifyOverload args c == .ArityMismatch then .ArityMismatch
  else .TypeIsNotAFunction

/-- First candidate classified *Ok*, scanning in source order. -/
def firstOkOverload (args : TyPack) : List Ty → Option Ty
  | [] => none
  | c :: cs => if classifyOverload args c = .Ok then some c else firstOkOverload args cs

/-- Modelled from the spec: `OverloadResolver::selectOverload` (declared in
OverloadResolution.h; spec section 4.4): candidates are tried in source
order, each classified, and the first *Ok* wins, returning the chosen
overload; when none is *Ok* the most informative failure is reported with the
original callee type. -/
def selectOverload (ty : Ty) (args : TyPack) : Analysis × Ty :=
  match firstOkOverload args (candidates ty) with
  | some c => (.Ok, c)
  | none => (bestFailure args (candidates ty), ty)

/-- Guard on a seen set: every pair it holds is strictly larger than the
current query.  This is the invariant the engine maintains along every
recursion path, since each rule recurses into strictly smaller pairs. -/
def seenGuard (n : Nat) (seen : List (Ty × Ty)) : Prop :=
  ∀ p ∈ seen, n < p.1.size + p.2.size

/-- Occurrence of a type as a leaf of the union tree of another type
(including the type itself). -/
def unionContains : Ty → Ty → Prop
  | .union x y, t => Ty.union x y = t ∨ unionContains x t ∨ unionContains y t
  | s, t => s = t

end Luau

namespace Luau

theorem Ty.size_pos (t : Ty) : 0 < t.size := by
  cases t <;> simp [Ty.size]

theorem TyPack.packSize_pos (p : TyPack) : 0 < p.size := by
  cases p <;> simp [TyPack.size]

@[simp] theorem SubtypingResult.success_isSubtype : SubtypingResult.success.isSubtype = true := rfl

@[simp] theorem SubtypingResult.success_isCacheable : SubtypingResult.success.isCacheable = true := rfl

@[simp] theorem SubtypingResult.success_normalizationTooComplex :
    SubtypingResult.success.normalizationTooComplex = false := rfl

@[simp] theorem SubtypingResult.andAlso_isSubtype (r s : SubtypingResult) :
    (r.andAlso s).isSubtype = (r.isSubtype && s.isSubtype) := rfl

@[simp] theorem SubtypingResult.andAlso_isCacheable (r s : SubtypingResult) :
    (r.andAlso s).isCacheable = (r.isCacheable && s.isCacheable) := rfl

@[simp] theorem SubtypingResult.andAlso_normalizationTooComplex (r s : SubtypingResult) :
    (r.andAlso s).normalizationTooComplex =
      (r.normalizationTooComplex || s.normalizationTooComplex) := rfl

@[simp] theorem SubtypingResult.orElse_isSubtype (r s : SubtypingResult) :
    (r.orElse s).isSubtype = (r.isSubtype || s.isSubtype) := rfl

@[simp] theorem SubtypingResult.orElse_isCacheable (r s : SubtypingResult) :
    (r.orElse s).isCacheable = (r.isCacheable && s.isCacheable) := rfl

@[simp] theorem SubtypingResult.orElse_normalizationTooComplex (r s : SubtypingResult) :
    (r.orElse s).normalizationTooComplex =
      (r.normalizationTooComplex || s.normalizationTooComplex) := rfl

@[simp] theorem SubtypingResult.all_pair (r s : SubtypingResult) :
    SubtypingResult.all [r, s] = (SubtypingResult.success.andAlso r).andAlso s := rfl

@[simp] theorem SubtypingResult.any_pair (r s : SubtypingResult) :
    SubtypingResult.any [r, s] = (({ isSubtype := false } : SubtypingResult).orElse r).orElse s := rfl

@[simp] theorem SubtypingResult.withBothComponent_isSubtype (r : SubtypingResult) (c : PathComponent) :
    (r.withBothComponent c).isSubtype = r.isSubtype := rfl

@[simp] theorem SubtypingResult.withBothComponent_isCacheable (r : SubtypingResult) (c : PathComponent) :
    (r.withBothComponent c).isCacheable = r.isCacheable := rfl

@[simp] theorem SubtypingResult.withBothComponent_normalizationTooComplex
    (r : SubtypingResult) (c : PathComponent) :
    (r.withBothComponent c).normalizationTooComplex = r.normalizationTooComplex := rfl

@[simp] theorem SubtypingResult.withFlippedVariance_isSubtype (r : SubtypingResult) :
    r.withFlippedVariance.isSubtype = r.isSubtype := rfl

@[simp] theorem SubtypingResult.withFlippedVariance_isCacheable (r : SubtypingResult) :
    r.withFlippedVariance.isCacheable = r.isCacheable := rfl

@[simp] theorem SubtypingResult.withFlippedVariance_normalizationTooComplex (r : SubtypingResult) :
    r.withFlippedVariance.normalizationTooComplex = r.normalizationTooComplex := rfl

@[simp] theorem SubtypingTrace.merge_binds (t u : SubtypingTrace) :
    (t.merge u).binds = t.binds ++ u.binds := rfl

@[simp] theorem SubtypingTrace.merge_seenHit (t u : SubtypingTrace) :
    (t.merge u).seenHit = (t.seenHit || u.seenHit) := rfl

theorem isAnyOrError_prim (p : PrimKind) :
    isAnyOrError (.prim p) = (p == .any || p == .err) := by
  cases p <;> rfl

theorem isAnyOrError_singleton (v : SingletonVal) :
    isAnyOrError (.singleton v) = false := rfl

theorem isAnyOrError_union (x y : Ty) : isAnyOrError (.union x y) = false := rfl

theorem isAnyOrError_inter (x y : Ty) : isAnyOrError (.inter x y) = false := rfl

theorem isAnyOrError_func (p r : TyPack) : isAnyOrError (.func p r) = false := rfl

theorem isAnyOrError_generic (g : Nat) : isAnyOrError (.generic g) = false := rfl

theorem lookupBounds_insertUpperBound (l : List (Nat × GenericBounds)) (g : Nat) (t : Ty) :
    lookupBounds (insertUpperBound l g t) g =
      (lookupBounds l g).map fun b => { b with upperBound := t :: b.upperBound } := by
  induction l with
  | nil => simp [insertUpperBound, lookupBounds]
  | cons p ps ih =>
    by_cases h : p.1 = g
    · simp [insertUpperBound, lookupBounds, h]
    · simp [insertUpperBound, lookupBounds, h, ih]

theorem lookupBounds_insertLowerBound (l : List (Nat × GenericBounds)) (g : Nat) (t : Ty) :
    lookupBounds (insertLowerBound l g t) g =
      (lookupBounds l g).map fun b => { b with lowerBound := t :: b.lowerBound } := by
  induction l with
  | nil => simp [insertLowerBound, lookupBounds]
  | cons p ps ih =>
    by_cases h : p.1 = g
    · simp [insertLowerBound, lookupBounds, h]
    · simp [insertLowerBound, lookupBounds, h, ih]

theorem boundsOf_recordUpperBound (env : SubtypingEnvironment) (g : Nat) (t : Ty)
    (h : env.isFlexible g = true) :
    ((env.recordUpperBound g t).boundsOf g).upperBound = t :: (env.boundsOf g).upperBound := by
  rw [SubtypingEnvironment.isFlexible, Option.isSome_iff_exists] at h
  obtain ⟨b, hb⟩ := h
  simp [SubtypingEnvironment.boundsOf, SubtypingEnvironment.recordUpperBound,
    lookupBounds_insertUpperBound, hb]

theorem boundsOf_recordLowerBound (env : SubtypingEnvironment) (g : Nat) (t : Ty)
    (h : env.isFlexible g = true) :
    ((env.recordLowerBound g t).boundsOf g).lowerBound = t :: (env.boundsOf g).lowerBound := by
  rw [SubtypingEnvironment.isFlexible, Option.isSome_iff_exists] at h
  obtain ⟨b, hb⟩ := h
  simp [SubtypingEnvironment.boundsOf, SubtypingEnvironment.recordLowerBound,
    lookupBounds_insertLowerBound, hb]

theorem seenGuard_nil (n : Nat) : seenGuard n [] := by
  intro p hp
  simp at hp

theorem seenGuard_push {seen : List (Ty × Ty)} {a b : Ty}
    (h : seenGuard (a.size + b.size) seen) {m : Nat} (hm : m < a.size + b.size) :
    seenGuard m ((a, b) :: seen) := by
  intro p hp
  rcases List.mem_cons.1 hp with rfl | hp
  · simpa using hm
  · exact lt_trans hm (h p hp)

theorem seenGuard_not_mem {seen : List (Ty × Ty)} {a b : Ty}
    (h : seenGuard (a.size + b.size) seen) : (a, b) ∉ seen := by
  intro hin
  have := h _ hin
  simp at this

@[simp] theorem List_isEmpty_append {α : Type} (l l' : List α) :
    (l ++ l').isEmpty = (l.isEmpty && l'.isEmpty) := by
  cases l <;> simp

theorem seenGuard_mono {n m : Nat} {seen : List (Ty × Ty)}
    (h : seenGuard n seen) (hm : m ≤ n) : seenGuard m seen := by
  intro p hp
  exact lt_of_le_of_lt hm (h p hp)

/-- Stability and bookkeeping characterisation of the engine, proved by strong
induction on the step budget.  For any budget at least the structural size of
the query and any seen set whose pairs are all strictly larger than the query
(the invariant of every reachable engine state), the run equals the canonical
run (size budget, empty seen set), its result is cacheable exactly when no
generic bound was recorded, the co-induction short-circuit never fires, and
the budget never expires. -/
theorem engine_stable (fuel : Nat) :
    (∀ (env : SubtypingEnvironment) (seen : List (Ty × Ty)) (a b : Ty),
      a.size + b.size ≤ fuel → seenGuard (a.size + b.size) seen →
      isCovariantWith env fuel seen a b = isCovariantWith env (a.size + b.size) [] a b ∧
      (isCovariantWith env fuel seen a b).1.isCacheable =
        (isCovariantWith env fuel seen a b).2.binds.isEmpty ∧
      (isCovariantWith env fuel seen a b).2.seenHit = false ∧
      (isCovariantWith env fuel seen a b).1.normalizationTooComplex = false) ∧
    (∀ (env : SubtypingEnvironment) (seen : List (Ty × Ty)) (P Q : TyPack),
      P.size + Q.size ≤ fuel → seenGuard (P.size + Q.size) seen →
      packIsCovariantWith env fuel seen P Q = packIsCovariantWith env (P.size + Q.size) [] P Q ∧
      (packIsCovariantWith env fuel seen P Q).1.isCacheable =
        (packIsCovariantWith env fuel seen P Q).2.binds.isEmpty ∧
      (packIsCovariantWith env fuel seen P Q).2.seenHit = false ∧
      (packIsCovariantWith env fuel seen P Q).1.normalizationTooComplex = false) := by
  induction fuel using Nat.strong_induction_on with
  | _ fuel IH =>
  constructor
  · intro env seen a b hfuel hguard
    obtain ⟨f, rfl⟩ : ∃ f, fuel = f + 1 :=
      ⟨fuel - 1, by have := Ty.size_pos a; have := Ty.size_pos b; omega⟩
    obtain ⟨m, hm⟩ : ∃ m, a.size + b.size = m + 1 :=
      ⟨a.size + b.size - 1, by have := Ty.size_pos a; omega⟩
    rw [hm]
    by_cases hab : a = b
    · subst hab
      simp [isCovariantWith]
    by_cases he : (isAnyOrError a || isAnyOrError b) = true
    · simp [isCovariantWith, hab, he]
    by_cases hnev : a = Ty.prim .never
    · simp [isCovariantWith, hab, he, hnev]
    by_cases hunk : b = Ty.prim .unknown
    · simp [isCovariantWith, hab, he, hnev, hunk]
    rw [Bool.or_eq_true, not_or, Bool.not_eq_true, Bool.not_eq_true] at he
    have hmemL : (a, b) ∉ seen := seenGuard_not_mem hguard
    cases a with
    | union x y =>
      have hx : x.size + b.size < (Ty.union x y).size + b.size := by
        simp [Ty.size]
        have := Ty.size_pos y
        omega
      have hy : y.size + b.size < (Ty.union x y).size + b.size := by
        simp [Ty.size]
        have := Ty.size_pos x
        omega
      obtain ⟨ex, -, -, -⟩ := (IH f (by omega)).1 env ((Ty.union x y, b) :: seen) x b
        (by omega) (seenGuard_push hguard hx)
      obtain ⟨ey, -, -, -⟩ := (IH f (by omega)).1 env ((Ty.union x y, b) :: seen) y b
        (by omega) (seenGuard_push hguard hy)
      obtain ⟨fx, -, -, -⟩ := (IH m (by omega)).1 env [(Ty.union x y, b)] x b
        (by omega) (seenGuard_push (seenGuard_nil _) hx)
      obtain ⟨fy, -, -, -⟩ := (IH m (by omega)).1 env [(Ty.union x y, b)] y b
        (by omega) (seenGuard_push (seenGuard_nil _) hy)
      obtain ⟨-, gx1, gx2, gx3⟩ := (IH (x.size + b.size) (by omega)).1 env [] x b
        le_rfl (seenGuard_nil _)
      obtain ⟨-, gy1, gy2, gy3⟩ := (IH (y.size + b.size) (by omega)).1 env [] y b
        le_rfl (seenGuard_nil _)
      have eL : isCovariantWith env (f + 1) seen (Ty.union x y) b =
          (.all [(isCovariantWith env (x.size + b.size) [] x b).1,
                 (isCovariantWith env (y.size + b.size) [] y b).1],
           (isCovariantWith env (x.size + b.size) [] x b).2.merge
             (isCovariantWith env (y.size + b.size) [] y b).2) := by
        rw [isCovariantWith]
        simp [hab, he.1, he.2, hnev, hunk, hmemL, ex, ey, gx3, gy3]
      have eR : isCovariantWith env (m + 1) [] (Ty.union x y) b =
          (.all [(isCovariantWith env (x.size + b.size) [] x b).1,
                 (isCovariantWith env (y.size + b.size) [] y b).1],
           (isCovariantWith env (x.size + b.size) [] x b).2.merge
             (isCovariantWith env (y.size + b.size) [] y b).2) := by
        rw [isCovariantWith]
        simp [hab, he.1, he.2, hnev, hunk, fx, fy, gx3, gy3]
      rw [eL, eR]
      refine ⟨rfl, ?_, ?_, ?_⟩ <;> simp [gx1, gx2, gx3, gy1, gy2, gy3]
    | prim p =>
      cases b with
      | union bx byy =>
        have hx : (Ty.prim p).size + bx.size < (Ty.prim p).size + (Ty.union bx byy).size := by
          simp only [Ty.size]
          omega
        have hy : (Ty.prim p).size + byy.size < (Ty.prim p).size + (Ty.union bx byy).size := by
          simp only [Ty.size]
          omega
        obtain ⟨ex, -, -, -⟩ := (IH f (by omega)).1 env ((Ty.prim p, Ty.union bx byy) :: seen) (Ty.prim p) bx
          (by omega) (seenGuard_push hguard hx)
        obtain ⟨ey, -, -, -⟩ := (IH f (by omega)).1 env ((Ty.prim p, Ty.union bx byy) :: seen) (Ty.prim p) byy
          (by omega) (seenGuard_push hguard hy)
        obtain ⟨fx, -, -, -⟩ := (IH m (by omega)).1 env [(Ty.prim p, Ty.union bx byy)] (Ty.prim p) bx
          (by omega) (seenGuard_push (seenGuard_nil _) hx)
        obtain ⟨fy, -, -, -⟩ := (IH m (by omega)).1 env [(Ty.prim p, Ty.union bx byy)] (Ty.prim p) byy
          (by omega) (seenGuard_push (seenGuard_nil _) hy)
        obtain ⟨-, gx1, gx2, gx3⟩ := (IH ((Ty.prim p).size + bx.size) (by omega)).1 env [] (Ty.prim p) bx
          le_rfl (seenGuard_nil _)
        obtain ⟨-, gy1, gy2, gy3⟩ := (IH ((Ty.prim p).size + byy.size) (by omega)).1 env [] (Ty.prim p) byy
          le_rfl (seenGuard_nil _)
        have eL : isCovariantWith env (f + 1) seen (Ty.prim p) (Ty.union bx byy) =
            (.any [(isCovariantWith env ((Ty.prim p).size + bx.size) [] (Ty.prim p) bx).1,
                   (isCovariantWith env ((Ty.prim p).size + byy.size) [] (Ty.prim p) byy).1],
             (isCovariantWith env ((Ty.prim p).size + bx.size) [] (Ty.prim p) bx).2.merge
               (isCovariantWith env ((Ty.prim p).size + byy.size) [] (Ty.prim p) byy).2) := by
          rw [isCovariantWith]
          simp [hab, he.1, he.2, hnev, hunk, hmemL, ex, ey, gx3, gy3]
        have eR : isCovariantWith env (m + 1) [] (Ty.prim p) (Ty.union bx byy) =
            (.any [(isCovariantWith env ((Ty.prim p).size + bx.size) [] (Ty.prim p) bx).1,
                   (isCovariantWith env ((Ty.prim p).size + byy.size) [] (Ty.prim p) byy).1],
             (isCovariantWith env ((Ty.prim p).size + bx.size) [] (Ty.prim p) bx).2.merge
               (isCovariantWith env ((Ty.prim p).size + byy.size) [] (Ty.prim p) byy).2) := by
          rw [isCovariantWith]
          simp [hab, he.1, he.2, hnev, hunk, fx, fy, gx3, gy3]
        rw [eL, eR]
        refine ⟨rfl, ?_, ?_, ?_⟩ <;> simp [gx1, gx2, gx3, gy1, gy2, gy3]
      | inter bx byy =>
        have hx : (Ty.prim p).size + bx.size < (Ty.prim p).size + (Ty.inter bx byy).size := by
          simp only [Ty.size]
          omega
        have hy : (Ty.prim p).size + byy.size < (Ty.prim p).size + (Ty.inter bx byy).size := by
          simp only [Ty.size]
          omega
        obtain ⟨ex, -, -, -⟩ := (IH f (by omega)).1 env ((Ty.prim p, Ty.inter bx byy) :: seen) (Ty.prim p) bx
          (by omega) (seenGuard_push hguard hx)
        obtain ⟨ey, -, -, -⟩ := (IH f (by omega)).1 env ((Ty.prim p, Ty.inter bx byy) :: seen) (Ty.prim p) byy
          (by omega) (seenGuard_push hguard hy)
        obtain ⟨fx, -, -, -⟩ := (IH m (by omega)).1 env [(Ty.prim p, Ty.inter bx byy)] (Ty.prim p) bx
          (by omega) (seenGuard_push (seenGuard_nil _) hx)
        obtain ⟨fy, -, -, -⟩ := (IH m (by omega)).1 env [(Ty.prim p, Ty.inter bx byy)] (Ty.prim p) byy
          (by omega) (seenGuard_push (seenGuard_nil _) hy)
        obtain ⟨-, gx1, gx2, gx3⟩ := (IH ((Ty.prim p).size + bx.size) (by omega)).1 env [] (Ty.prim p) bx
          le_rfl (seenGuard_nil _)
        obtain ⟨-, gy1, gy2, gy3⟩ := (IH ((Ty.prim p).size + byy.size) (by omega)).1 env [] (Ty.prim p) byy
          le_rfl (seenGuard_nil _)
        have eL : isCovariantWith env (f + 1) seen (Ty.prim p) (Ty.inter bx byy) =
            (.all [(isCovariantWith env ((Ty.prim p).size + bx.size) [] (Ty.prim p) bx).1,
                   (isCovariantWith env ((Ty.prim p).size + byy.size) [] (Ty.prim p) byy).1],
             (isCovariantWith env ((Ty.prim p).size + bx.size) [] (Ty.prim p) bx).2.merge
               (isCovariantWith env ((Ty.prim p).size + byy.size) [] (Ty.prim p) byy).2) := by
          rw [isCovariantWith]
          simp [hab, he.1, he.2, hnev, hunk, hmemL, ex, ey, gx3, gy3]
        have eR : isCovariantWith env (m + 1) [] (Ty.prim p) (Ty.inter bx byy) =
            (.all [(isCovariantWith env ((Ty.prim p).size + bx.size) [] (Ty.prim p) bx).1,
                   (isCovariantWith env ((Ty.prim p).size + byy.size) [] (Ty.prim p) byy).1],
             (isCovariantWith env ((Ty.prim p).size + bx.size) [] (Ty.prim p) bx).2.merge
               (isCovariantWith env ((Ty.prim p).size + byy.size) [] (Ty.prim p) byy).2) := by
          rw [isCovariantWith]
          simp [hab, he.1, he.2, hnev, hunk, fx, fy, gx3, gy3]
        rw [eL, eR]
        refine ⟨rfl, ?_, ?_, ?_⟩ <;> simp [gx1, gx2, gx3, gy1, gy2, gy3]
      | prim q =>
        simp [isCovariantWith, hab, he.1, he.2, hnev, hunk, hmemL, apply_ite]
      | singleton sv =>
        simp [isCovariantWith, hab, he.1, he.2, hnev, hunk, hmemL, apply_ite]
      | func fp fr =>
        simp [isCovariantWith, hab, he.1, he.2, hnev, hunk, hmemL, apply_ite]
      | generic g =>
        simp [isCovariantWith, hab, he.1, he.2, hnev, hunk, hmemL, apply_ite]
    | singleton sv =>
      cases b with
      | union bx byy =>
        have hx : (Ty.singleton sv).size + bx.size < (Ty.singleton sv).size + (Ty.union bx byy).size := by
          simp only [Ty.size]
          omega
        have hy : (Ty.singleton sv).size + byy.size < (Ty.singleton sv).size + (Ty.union bx byy).size := by
          simp only [Ty.size]
          omega
        obtain ⟨ex, -, -, -⟩ := (IH f (by omega)).1 env ((Ty.singleton sv, Ty.union bx byy) :: seen) (Ty.singleton sv) bx
          (by omega) (seenGuard_push hguard hx)
        obtain ⟨ey, -, -, -⟩ := (IH f (by omega)).1 env ((Ty.singleton sv, Ty.union bx byy) :: seen) (Ty.singleton sv) byy
          (by omega) (seenGuard_push hguard hy)
        obtain ⟨fx, -, -, -⟩ := (IH m (by omega)).1 env [(Ty.singleton sv, Ty.union bx byy)] (Ty.singleton sv) bx
          (by omega) (seenGuard_push (seenGuard_nil _) hx)
        obtain ⟨fy, -, -, -⟩ := (IH m (by omega)).1 env [(Ty.singleton sv, Ty.union bx byy)] (Ty.singleton sv) byy
          (by omega) (seenGuard_push (seenGuard_nil _) hy)
        obtain ⟨-, gx1, gx2, gx3⟩ := (IH ((Ty.singleton sv).size + bx.size) (by omega)).1 env [] (Ty.singleton sv) bx
          le_rfl (seenGuard_nil _)
        obtain ⟨-, gy1, gy2, gy3⟩ := (IH ((Ty.singleton sv).size + byy.size) (by omega)).1 env [] (Ty.singleton sv) byy
          le_rfl (seenGuard_nil _)
        have eL : isCovariantWith env (f + 1) seen (Ty.singleton sv) (Ty.union bx byy) =
            (.any [(isCovariantWith env ((Ty.singleton sv).size + bx.size) [] (Ty.singleton sv) bx).1,
                   (isCovariantWith env ((Ty.singleton sv).size + byy.size) [] (Ty.singleton sv) byy).1],
             (isCovariantWith env ((Ty.singleton sv).size + bx.size) [] (Ty.singleton sv) bx).2.merge
               (isCovariantWith env ((Ty.singleton sv).size + byy.size) [] (Ty.singleton sv) byy).2) := by
          rw [isCovariantWith]
          simp [hab, he.1, he.2, hnev, hunk, hmemL, ex, ey, gx3, gy3]
        have eR : isCovariantWith env (m + 1) [] (Ty.singleton sv) (Ty.union bx byy) =
            (.any [(isCovariantWith env ((Ty.singleton sv).size + bx.size) [] (Ty.singleton sv) bx).1,
                   (isCovariantWith env ((Ty.singleton sv).size + byy.size) [] (Ty.singleton sv) byy).1],
             (isCovariantWith env ((Ty.singleton sv).size + bx.size) [] (Ty.singleton sv) bx).2.merge
               (isCovariantWith env ((Ty.singleton sv).size + byy.size) [] (Ty.singleton sv) byy).2) := by
          rw [isCovariantWith]
          simp [hab, he.1, he.2, hnev, hunk, fx, fy, gx3, gy3]
        rw [eL, eR]
        refine ⟨rfl, ?_, ?_, ?_⟩ <;> simp [gx1, gx2, gx3, gy1, gy2, gy3]
      | inter bx byy =>
        have hx : (Ty.singleton sv).size + bx.size < (Ty.singleton sv).size + (Ty.inter bx byy).size := by
          simp only [Ty.size]
          omega
        have hy : (Ty.singleton sv).size + byy.size < (Ty.singleton sv).size + (Ty.inter bx byy).size := by
          simp only [Ty.size]
          omega
        obtain ⟨ex, -, -, -⟩ := (IH f (by omega)).1 env ((Ty.singleton sv, Ty.inter bx byy) :: seen) (Ty.singleton sv) bx
          (by omega) (seenGuard_push hguard hx)
        obtain ⟨ey, -, -, -⟩ := (IH f (by omega)).1 env ((Ty.singleton sv, Ty.inter bx byy) :: seen) (Ty.singleton sv) byy
          (by omega) (seenGuard_push hguard hy)
        obtain ⟨fx, -, -, -⟩ := (IH m (by omega)).1 env [(Ty.singleton sv, Ty.inter bx byy)] (Ty.singleton sv) bx
          (by omega) (seenGuard_push (seenGuard_nil _) hx)
        obtain ⟨fy, -, -, -⟩ := (IH m (by omega)).1 env [(Ty.singleton sv, Ty.inter bx byy)] (Ty.singleton sv) byy
          (by omega) (seenGuard_push (seenGuard_nil _) hy)
        obtain ⟨-, gx1, gx2, gx3⟩ := (IH ((Ty.singleton sv).size + bx.size) (by omega)).1 env [] (Ty.singleton sv) bx
          le_rfl (seenGuard_nil _)
        obtain ⟨-, gy1, gy2, gy3⟩ := (IH ((Ty.singleton sv).size + byy.size) (by omega)).1 env [] (Ty.singleton sv) byy
          le_rfl (seenGuard_nil _)
        have eL : isCovariantWith env (f + 1) seen (Ty.singleton sv) (Ty.inter bx byy) =
            (.all [(isCovariantWith env ((Ty.singleton sv).size + bx.size) [] (Ty.singleton sv) bx).1,
                   (isCovariantWith env ((Ty.singleton sv).size + byy.size) [] (Ty.singleton sv) byy).1],
             (isCovariantWith env ((Ty.singleton sv).size + bx.size) [] (Ty.singleton sv) bx).2.merge
               (isCovariantWith env ((Ty.singleton sv).size + byy.size) [] (Ty.singleton sv) byy).2) := by
          rw [isCovariantWith]
          simp [hab, he.1, he.2, hnev, hunk, hmemL, ex, ey, gx3, gy3]
        have eR : isCovariantWith env (m + 1) [] (Ty.singleton sv) (Ty.inter bx byy) =
            (.all [(isCovariantWith env ((Ty.singleton sv).size + bx.size) [] (Ty.singleton sv) bx).1,
                   (isCovariantWith env ((Ty.singleton sv).size + byy.size) [] (Ty.singleton sv) byy).1],
             (isCovariantWith env ((Ty.singleton sv).size + bx.size) [] (Ty.singleton sv) bx).2.merge
               (isCovariantWith env ((Ty.singleton sv).size + byy.size) [] (Ty.singleton sv) byy).2) := by
          rw [isCovariantWith]
          simp [hab, he.1, he.2, hnev, hunk, fx, fy, gx3, gy3]
        rw [eL, eR]
        refine ⟨rfl, ?_, ?_, ?_⟩ <;> simp [gx1, gx2, gx3, gy1, gy2, gy3]
      | prim q =>
        simp [isCovariantWith, hab, he.1, he.2, hnev, hunk, hmemL, apply_ite]
      | singleton sw =>
        simp [isCovariantWith, hab, he.1, he.2, hnev, hunk, hmemL, apply_ite]
      | func fp fr =>
        simp [isCovariantWith, hab, he.1, he.2, hnev, hunk, hmemL, apply_ite]
      | generic g =>
        simp [isCovariantWith, hab, he.1, he.2, hnev, hunk, hmemL, apply_ite]
    | inter x y =>
      cases b with
      | union bx byy =>
        have hx : (Ty.inter x y).size + bx.size < (Ty.inter x y).size + (Ty.union bx byy).size := by
          simp only [Ty.size]
          omega
        have hy : (Ty.inter x y).size + byy.size < (Ty.inter x y).size + (Ty.union bx byy).size := by
          simp only [Ty.size]
          omega
        obtain ⟨ex, -, -, -⟩ := (IH f (by omega)).1 env ((Ty.inter x y, Ty.union bx byy) :: seen) (Ty.inter x y) bx
          (by omega) (seenGuard_push hguard hx)
        obtain ⟨ey, -, -, -⟩ := (IH f (by omega)).1 env ((Ty.inter x y, Ty.union bx byy) :: seen) (Ty.inter x y) byy
          (by omega) (seenGuard_push hguard hy)
        obtain ⟨fx, -, -, -⟩ := (IH m (by omega)).1 env [(Ty.inter x y, Ty.union bx byy)] (Ty.inter x y) bx
          (by omega) (seenGuard_push (seenGuard_nil _) hx)
        obtain ⟨fy, -, -, -⟩ := (IH m (by omega)).1 env [(Ty.inter x y, Ty.union bx byy)] (Ty.inter x y) byy
          (by omega) (seenGuard_push (seenGuard_nil _) hy)
        obtain ⟨-, gx1, gx2, gx3⟩ := (IH ((Ty.inter x y).size + bx.size) (by omega)).1 env [] (Ty.inter x y) bx
          le_rfl (seenGuard_nil _)
        obtain ⟨-, gy1, gy2, gy3⟩ := (IH ((Ty.inter x y).size + byy.size) (by omega)).1 env [] (Ty.inter x y) byy
          le_rfl (seenGuard_nil _)
        have eL : isCovariantWith env (f + 1) seen (Ty.inter x y) (Ty.union bx byy) =
            (.any [(isCovariantWith env ((Ty.inter x y).size + bx.size) [] (Ty.inter x y) bx).1,
                   (isCovariantWith env ((Ty.inter x y).size + byy.size) [] (Ty.inter x y) byy).1],
             (isCovariantWith env ((Ty.inter x y).size + bx.size) [] (Ty.inter x y) bx).2.merge
               (isCovariantWith env ((Ty.inter x y).size + byy.size) [] (Ty.inter x y) byy).2) := by
          rw [isCovariantWith]
          simp [hab, he.1, he.2, hnev, hunk, hmemL, ex, ey, gx3, gy3]
        have eR : isCovariantWith env (m + 1) [] (Ty.inter x y) (Ty.union bx byy) =
            (.any [(isCovariantWith env ((Ty.inter x y).size + bx.size) [] (Ty.inter x y) bx).1,
                   (isCovariantWith env ((Ty.inter x y).size + byy.size) [] (Ty.inter x y) byy).1],
             (isCovariantWith env ((Ty.inter x y).size + bx.size) [] (Ty.inter x y) bx).2.merge
               (isCovariantWith env ((Ty.inter x y).size + byy.size) [] (Ty.inter x y) byy).2) := by
          rw [isCovariantWith]
          simp [hab, he.1, he.2, hnev, hunk, fx, fy, gx3, gy3]
        rw [eL, eR]
        refine ⟨rfl, ?_, ?_, ?_⟩ <;> simp [gx1, gx2, gx3, gy1, gy2, gy3]
      | inter bx byy =>
        have hx : x.size + (Ty.inter bx byy).size < (Ty.inter x y).size + (Ty.inter bx byy).size := by
          simp only [Ty.size]
          omega
        have hy : y.size + (Ty.inter bx byy).size < (Ty.inter x y).size + (Ty.inter bx byy).size := by
          simp only [Ty.size]
          omega
        obtain ⟨ex, -, -, -⟩ := (IH f (by omega)).1 env ((Ty.inter x y, Ty.inter bx byy) :: seen) x (Ty.inter bx byy)
          (by omega) (seenGuard_push hguard hx)
        obtain ⟨ey, -, -, -⟩ := (IH f (by omega)).1 env ((Ty.inter x y, Ty.inter bx byy) :: seen) y (Ty.inter bx byy)
          (by omega) (seenGuard_push hguard hy)
        obtain ⟨fx, -, -, -⟩ := (IH m (by omega)).1 env [(Ty.inter x y, Ty.inter bx byy)] x (Ty.inter bx byy)
          (by omega) (seenGuard_push (seenGuard_nil _) hx)
        obtain ⟨fy, -, -, -⟩ := (IH m (by omega)).1 env [(Ty.inter x y, Ty.inter bx byy)] y (Ty.inter bx byy)
          (by omega) (seenGuard_push (seenGuard_nil _) hy)
        obtain ⟨-, gx1, gx2, gx3⟩ := (IH (x.size + (Ty.inter bx byy).size) (by omega)).1 env [] x (Ty.inter bx byy)
          le_rfl (seenGuard_nil _)
        obtain ⟨-, gy1, gy2, gy3⟩ := (IH (y.size + (Ty.inter bx byy).size) (by omega)).1 env [] y (Ty.inter bx byy)
          le_rfl (seenGuard_nil _)
        have eL : isCovariantWith env (f + 1) seen (Ty.inter x y) (Ty.inter bx byy) =
            (.any [(isCovariantWith env (x.size + (Ty.inter bx byy).size) [] x (Ty.inter bx byy)).1,
                   (isCovariantWith env (y.size + (Ty.inter bx byy).size) [] y (Ty.inter bx byy)).1],
             (isCovariantWith env (x.size + (Ty.inter bx byy).size) [] x (Ty.inter bx byy)).2.merge
               (isCovariantWith env (y.size + (Ty.inter bx byy).size) [] y (Ty.inter bx byy)).2) := by
          rw [isCovariantWith]
          simp [hab, he.1, he.2, hnev, hunk, hmemL, ex, ey, gx3, gy3]
        have eR : isCovariantWith env (m + 1) [] (Ty.inter x y) (Ty.inter bx byy) =
            (.any [(isCovariantWith env (x.size + (Ty.inter bx byy).size) [] x (Ty.inter bx byy)).1,
                   (isCovariantWith env (y.size + (Ty.inter bx byy).size) [] y (Ty.inter bx byy)).1],
             (isCovariantWith env (x.size + (Ty.inter bx byy).size) [] x (Ty.inter bx byy)).2.merge
               (isCovariantWith env (y.size + (Ty.inter bx byy).size) [] y (Ty.inter bx byy)).2) := by
          rw [isCovariantWith]
          simp [hab, he.1, he.2, hnev, hunk, fx, fy, gx3, gy3]
        rw [eL, eR]
        refine ⟨rfl, ?_, ?_, ?_⟩ <;> simp [gx1, gx2, gx3, gy1, gy2, gy3]
      | prim q =>
        have hx : x.size + (Ty.prim q).size < (Ty.inter x y).size + (Ty.prim q).size := by
          simp only [Ty.size]
          omega
        have hy : y.size + (Ty.prim q).size < (Ty.inter x y).size + (Ty.prim q).size := by
          simp only [Ty.size]
          omega
        obtain ⟨ex, -, -, -⟩ := (IH f (by omega)).1 env ((Ty.inter x y, Ty.prim q) :: seen) x (Ty.prim q)
          (by omega) (seenGuard_push hguard hx)
        obtain ⟨ey, -, -, -⟩ := (IH f (by omega)).1 env ((Ty.inter x y, Ty.prim q) :: seen) y (Ty.prim q)
          (by omega) (seenGuard_push hguard hy)
        obtain ⟨fx, -, -, -⟩ := (IH m (by omega)).1 env [(Ty.inter x y, Ty.prim q)] x (Ty.prim q)
          (by omega) (seenGuard_push (seenGuard_nil _) hx)
        obtain ⟨fy, -, -, -⟩ := (IH m (by omega)).1 env [(Ty.inter x y, Ty.prim q)] y (Ty.prim q)
          (by omega) (seenGuard_push (seenGuard_nil _) hy)
        obtain ⟨-, gx1, gx2, gx3⟩ := (IH (x.size + (Ty.prim q).size) (by omega)).1 env [] x (Ty.prim q)
          le_rfl (seenGuard_nil _)
        obtain ⟨-, gy1, gy2, gy3⟩ := (IH (y.size + (Ty.prim q).size) (by omega)).1 env [] y (Ty.prim q)
          le_rfl (seenGuard_nil _)
        have eL : isCovariantWith env (f + 1) seen (Ty.inter x y) (Ty.prim q) =
            (.any [(isCovariantWith env (x.size + (Ty.prim q).size) [] x (Ty.prim q)).1,
                   (isCovariantWith env (y.size + (Ty.prim q).size) [] y (Ty.prim q)).1],
             (isCovariantWith env (x.size + (Ty.prim q).size) [] x (Ty.prim q)).2.merge
               (isCovariantWith env (y.size + (Ty.prim q).size) [] y (Ty.prim q)).2) := by
          rw [isCovariantWith]
          simp [hab, he.1, he.2, hnev, hunk, hmemL, ex, ey, gx3, gy3]
        have eR : isCovariantWith env (m + 1) [] (Ty.inter x y) (Ty.prim q) =
            (.any [(isCovariantWith env (x.size + (Ty.prim q).size) [] x (Ty.prim q)).1,
                   (isCovariantWith env (y.size + (Ty.prim q).size) [] y (Ty.prim q)).1],
             (isCovariantWith env (x.size + (Ty.prim q).size) [] x (Ty.prim q)).2.merge
               (isCovariantWith env (y.size + (Ty.prim q).size) [] y (Ty.prim q)).2) := by
          rw [isCovariantWith]
          simp [hab, he.1, he.2, hnev, hunk, fx, fy, gx3, gy3]
        rw [eL, eR]
        refine ⟨rfl, ?_, ?_, ?_⟩ <;> simp [gx1, gx2, gx3, gy1, gy2, gy3]
      | singleton sw =>
        have hx : x.size + (Ty.singleton sw).size < (Ty.inter x y).size + (Ty.singleton sw).size := by
          simp only [Ty.size]
          omega
        have hy : y.size + (Ty.singleton sw).size < (Ty.inter x y).size + (Ty.singleton sw).size := by
          simp only [Ty.size]
          omega
        obtain ⟨ex, -, -, -⟩ := (IH f (by omega)).1 env ((Ty.inter x y, Ty.singleton sw) :: seen) x (Ty.singleton sw)
          (by omega) (seenGuard_push hguard hx)
        obtain ⟨ey, -, -, -⟩ := (IH f (by omega)).1 env ((Ty.inter x y, Ty.singleton sw) :: seen) y (Ty.singleton sw)
          (by omega) (seenGuard_push hguard hy)
        obtain ⟨fx, -, -, -⟩ := (IH m (by omega)).1 env [(Ty.inter x y, Ty.singleton sw)] x (Ty.singleton sw)
          (by omega) (seenGuard_push (seenGuard_nil _) hx)
        obtain ⟨fy, -, -, -⟩ := (IH m (by omega)).1 env [(Ty.inter x y, Ty.singleton sw)] y (Ty.singleton sw)
          (by omega) (seenGuard_push (seenGuard_nil _) hy)
        obtain ⟨-, gx1, gx2, gx3⟩ := (IH (x.size + (Ty.singleton sw).size) (by omega)).1 env [] x (Ty.singleton sw)
          le_rfl (seenGuard_nil _)
        obtain ⟨-, gy1, gy2, gy3⟩ := (IH (y.size + (Ty.singleton sw).size) (by omega)).1 env [] y (Ty.singleton sw)
          le_rfl (seenGuard_nil _)
        have eL : isCovariantWith env (f + 1) seen (Ty.inter x y) (Ty.singleton sw) =
            (.any [(isCovariantWith env (x.size + (Ty.singleton sw).size) [] x (Ty.singleton sw)).1,
                   (isCovariantWith env (y.size + (Ty.singleton sw).size) [] y (Ty.singleton sw)).1],
             (isCovariantWith env (x.size + (Ty.singleton sw).size) [] x (Ty.singleton sw)).2.merge
               (isCovariantWith env (y.size + (Ty.singleton sw).size) [] y (Ty.singleton sw)).2) := by
          rw [isCovariantWith]
          simp [hab, he.1, he.2, hnev, hunk, hmemL, ex, ey, gx3, gy3]
        have eR : isCovariantWith env (m + 1) [] (Ty.inter x y) (Ty.singleton sw) =
            (.any [(isCovariantWith env (x.size + (Ty.singleton sw).size) [] x (Ty.singleton sw)).1,
                   (isCovariantWith env (y.size + (Ty.singleton sw).size) [] y (Ty.singleton sw)).1],
             (isCovariantWith env (x.size + (Ty.singleton sw).size) [] x (Ty.singleton sw)).2.merge
               (isCovariantWith env (y.size + (Ty.singleton sw).size) [] y (Ty.singleton sw)).2) := by
          rw [isCovariantWith]
          simp [hab, he.1, he.2, hnev, hunk, fx, fy, gx3, gy3]
        rw [eL, eR]
        refine ⟨rfl, ?_, ?_, ?_⟩ <;> simp [gx1, gx2, gx3, gy1, gy2, gy3]
      | func fp fr =>
        have hx : x.size + (Ty.func fp fr).size < (Ty.inter x y).size + (Ty.func fp fr).size := by
          simp only [Ty.size]
          omega
        have hy : y.size + (Ty.func fp fr).size < (Ty.inter x y).size + (Ty.func fp fr).size := by
          simp only [Ty.size]
          omega
        obtain ⟨ex, -, -, -⟩ := (IH f (by omega)).1 env ((Ty.inter x y, Ty.func fp fr) :: seen) x (Ty.func fp fr)
          (by omega) (seenGuard_push hguard hx)
        obtain ⟨ey, -, -, -⟩ := (IH f (by omega)).1 env ((Ty.inter x y, Ty.func fp fr) :: seen) y (Ty.func fp fr)
          (by omega) (seenGuard_push hguard hy)
        obtain ⟨fx, -, -, -⟩ := (IH m (by omega)).1 env [(Ty.inter x y, Ty.func fp fr)] x (Ty.func fp fr)
          (by omega) (seenGuard_push (seenGuard_nil _) hx)
        obtain ⟨fy, -, -, -⟩ := (IH m (by omega)).1 env [(Ty.inter x y, Ty.func fp fr)] y (Ty.func fp fr)
          (by omega) (seenGuard_push (seenGuard_nil _) hy)
        obtain ⟨-, gx1, gx2, gx3⟩ := (IH (x.size + (Ty.func fp fr).size) (by omega)).1 env [] x (Ty.func fp fr)
          le_rfl (seenGuard_nil _)
        obtain ⟨-, gy1, gy2, gy3⟩ := (IH (y.size + (Ty.func fp fr).size) (by omega)).1 env [] y (Ty.func fp fr)
          le_rfl (seenGuard_nil _)
        have eL : isCovariantWith env (f + 1) seen (Ty.inter x y) (Ty.func fp fr) =
            (.any [(isCovariantWith env (x.size + (Ty.func fp fr).size) [] x (Ty.func fp fr)).1,
                   (isCovariantWith env (y.size + (Ty.func fp fr).size) [] y (Ty.func fp fr)).1],
             (isCovariantWith env (x.size + (Ty.func fp fr).size) [] x (Ty.func fp fr)).2.merge
               (isCovariantWith env (y.size + (Ty.func fp fr).size) [] y (Ty.func fp fr)).2) := by
          rw [isCovariantWith]
          simp [hab, he.1, he.2, hnev, hunk, hmemL, ex, ey, gx3, gy3]
        have eR : isCovariantWith env (m + 1) [] (Ty.inter x y) (Ty.func fp fr) =
            (.any [(isCovariantWith env (x.size + (Ty.func fp fr).size) [] x (Ty.func fp fr)).1,
                   (isCovariantWith env (y.size + (Ty.func fp fr).size) [] y (Ty.func fp fr)).1],
             (isCovariantWith env (x.size + (Ty.func fp fr).size) [] x (Ty.func fp fr)).2.merge
               (isCovariantWith env (y.size + (Ty.func fp fr).size) [] y (Ty.func fp fr)).2) := by
          rw [isCovariantWith]
          simp [hab, he.1, he.2, hnev, hunk, fx, fy, gx3, gy3]
        rw [eL, eR]
        refine ⟨rfl, ?_, ?_, ?_⟩ <;> simp [gx1, gx2, gx3, gy1, gy2, gy3]
      | generic g =>
        have hx : x.size + (Ty.generic g).size < (Ty.inter x y).size + (Ty.generic g).size := by
          simp only [Ty.size]
          omega
        have hy : y.size + (Ty.generic g).size < (Ty.inter x y).size + (Ty.generic g).size := by
          simp only [Ty.size]
          omega
        obtain ⟨ex, -, -, -⟩ := (IH f (by omega)).1 env ((Ty.inter x y, Ty.generic g) :: seen) x (Ty.generic g)
          (by omega) (seenGuard_push hguard hx)
        obtain ⟨ey, -, -, -⟩ := (IH f (by omega)).1 env ((Ty.inter x y, Ty.generic g) :: seen) y (Ty.generic g)
          (by omega) (seenGuard_push hguard hy)
        obtain ⟨fx, -, -, -⟩ := (IH m (by omega)).1 env [(Ty.inter x y, Ty.generic g)] x (Ty.generic g)
          (by omega) (seenGuard_push (seenGuard_nil _) hx)
        obtain ⟨fy, -, -, -⟩ := (IH m (by omega)).1 env [(Ty.inter x y, Ty.generic g)] y (Ty.generic g)
          (by omega) (seenGuard_push (seenGuard_nil _) hy)
        obtain ⟨-, gx1, gx2, gx3⟩ := (IH (x.size + (Ty.generic g).size) (by omega)).1 env [] x (Ty.generic g)
          le_rfl (seenGuard_nil _)
        obtain ⟨-, gy1, gy2, gy3⟩ := (IH (y.size + (Ty.generic g).size) (by omega)).1 env [] y (Ty.generic g)
          le_rfl (seenGuard_nil _)
        have eL : isCovariantWith env (f + 1) seen (Ty.inter x y) (Ty.generic g) =
            (.any [(isCovariantWith env (x.size + (Ty.generic g).size) [] x (Ty.generic g)).1,
                   (isCovariantWith env (y.size + (Ty.generic g).size) [] y (Ty.generic g)).1],
             (isCovariantWith env (x.size + (Ty.generic g).size) [] x (Ty.generic g)).2.merge
               (isCovariantWith env (y.size + (Ty.generic g).size) [] y (Ty.generic g)).2) := by
          rw [isCovariantWith]
          simp [hab, he.1, he.2, hnev, hunk, hmemL, ex, ey, gx3, gy3]
        have eR : isCovariantWith env (m + 1) [] (Ty.inter x y) (Ty.generic g) =
            (.any [(isCovariantWith env (x.size + (Ty.generic g).size) [] x (Ty.generic g)).1,
                   (isCovariantWith env (y.size + (Ty.generic g).size) [] y (Ty.generic g)).1],
             (isCovariantWith env (x.size + (Ty.generic g).size) [] x (Ty.generic g)).2.merge
               (isCovariantWith env (y.size + (Ty.generic g).size) [] y (Ty.generic g)).2) := by
          rw [isCovariantWith]
          simp [hab, he.1, he.2, hnev, hunk, fx, fy, gx3, gy3]
        rw [eL, eR]
        refine ⟨rfl, ?_, ?_, ?_⟩ <;> simp [gx1, gx2, gx3, gy1, gy2, gy3]
    | func p1 r1 =>
      cases b with
      | union bx byy =>
        have hx : (Ty.func p1 r1).size + bx.size < (Ty.func p1 r1).size + (Ty.union bx byy).size := by
          simp only [Ty.size]
          omega
        have hy : (Ty.func p1 r1).size + byy.size < (Ty.func p1 r1).size + (Ty.union bx byy).size := by
          simp only [Ty.size]
          omega
        obtain ⟨ex, -, -, -⟩ := (IH f (by omega)).1 env ((Ty.func p1 r1, Ty.union bx byy) :: seen) (Ty.func p1 r1) bx
          (by omega) (seenGuard_push hguard hx)
        obtain ⟨ey, -, -, -⟩ := (IH f (by omega)).1 env ((Ty.func p1 r1, Ty.union bx byy) :: seen) (Ty.func p1 r1) byy
          (by omega) (seenGuard_push hguard hy)
        obtain ⟨fx, -, -, -⟩ := (IH m (by omega)).1 env [(Ty.func p1 r1, Ty.union bx byy)] (Ty.func p1 r1) bx
          (by omega) (seenGuard_push (seenGuard_nil _) hx)
        obtain ⟨fy, -, -, -⟩ := (IH m (by omega)).1 env [(Ty.func p1 r1, Ty.union bx byy)] (Ty.func p1 r1) byy
          (by omega) (seenGuard_push (seenGuard_nil _) hy)
        obtain ⟨-, gx1, gx2, gx3⟩ := (IH ((Ty.func p1 r1).size + bx.size) (by omega)).1 env [] (Ty.func p1 r1) bx
          le_rfl (seenGuard_nil _)
        obtain ⟨-, gy1, gy2, gy3⟩ := (IH ((Ty.func p1 r1).size + byy.size) (by omega)).1 env [] (Ty.func p1 r1) byy
          le_rfl (seenGuard_nil _)
        have eL : isCovariantWith env (f + 1) seen (Ty.func p1 r1) (Ty.union bx byy) =
            (.any [(isCovariantWith env ((Ty.func p1 r1).size + bx.size) [] (Ty.func p1 r1) bx).1,
                   (isCovariantWith env ((Ty.func p1 r1).size + byy.size) [] (Ty.func p1 r1) byy).1],
             (isCovariantWith env ((Ty.func p1 r1).size + bx.size) [] (Ty.func p1 r1) bx).2.merge
               (isCovariantWith env ((Ty.func p1 r1).size + byy.size) [] (Ty.func p1 r1) byy).2) := by
          rw [isCovariantWith]
          simp [hab, he.1, he.2, hnev, hunk, hmemL, ex, ey, gx3, gy3]
        have eR : isCovariantWith env (m + 1) [] (Ty.func p1 r1) (Ty.union bx byy) =
            (.any [(isCovariantWith env ((Ty.func p1 r1).size + bx.size) [] (Ty.func p1 r1) bx).1,
                   (isCovariantWith env ((Ty.func p1 r1).size + byy.size) [] (Ty.func p1 r1) byy).1],
             (isCovariantWith env ((Ty.func p1 r1).size + bx.size) [] (Ty.func p1 r1) bx).2.merge
               (isCovariantWith env ((Ty.func p1 r1).size + byy.size) [] (Ty.func p1 r1) byy).2) := by
          rw [isCovariantWith]
          simp [hab, he.1, he.2, hnev, hunk, fx, fy, gx3, gy3]
        rw [eL, eR]
        refine ⟨rfl, ?_, ?_, ?_⟩ <;> simp [gx1, gx2, gx3, gy1, gy2, gy3]
      | inter bx byy =>
        have hx : (Ty.func p1 r1).size + bx.size < (Ty.func p1 r1).size + (Ty.inter bx byy).size := by
          simp only [Ty.size]
          omega
        have hy : (Ty.func p1 r1).size + byy.size < (Ty.func p1 r1).size + (Ty.inter bx byy).size := by
          simp only [Ty.size]
          omega
        obtain ⟨ex, -, -, -⟩ := (IH f (by omega)).1 env ((Ty.func p1 r1, Ty.inter bx byy) :: seen) (Ty.func p1 r1) bx
          (by omega) (seenGuard_push hguard hx)
        obtain ⟨ey, -, -, -⟩ := (IH f (by omega)).1 env ((Ty.func p1 r1, Ty.inter bx byy) :: seen) (Ty.func p1 r1) byy
          (by omega) (seenGuard_push hguard hy)
        obtain ⟨fx, -, -, -⟩ := (IH m (by omega)).1 env [(Ty.func p1 r1, Ty.inter bx byy)] (Ty.func p1 r1) bx
          (by omega) (seenGuard_push (seenGuard_nil _) hx)
        obtain ⟨fy, -, -, -⟩ := (IH m (by omega)).1 env [(Ty.func p1 r1, Ty.inter bx byy)] (Ty.func p1 r1) byy
          (by omega) (seenGuard_push (seenGuard_nil _) hy)
        obtain ⟨-, gx1, gx2, gx3⟩ := (IH ((Ty.func p1 r1).size + bx.size) (by omega)).1 env [] (Ty.func p1 r1) bx
          le_rfl (seenGuard_nil _)
        obtain ⟨-, gy1, gy2, gy3⟩ := (IH ((Ty.func p1 r1).size + byy.size) (by omega)).1 env [] (Ty.func p1 r1) byy
          le_rfl (seenGuard_nil _)
        have eL : isCovariantWith env (f + 1) seen (Ty.func p1 r1) (Ty.inter bx byy) =
            (.all [(isCovariantWith env ((Ty.func p1 r1).size + bx.size) [] (Ty.func p1 r1) bx).1,
                   (isCovariantWith env ((Ty.func p1 r1).size + byy.size) [] (Ty.func p1 r1) byy).1],
             (isCovariantWith env ((Ty.func p1 r1).size + bx.size) [] (Ty.func p1 r1) bx).2.merge
               (isCovariantWith env ((Ty.func p1 r1).size + byy.size) [] (Ty.func p1 r1) byy).2) := by
          rw [isCovariantWith]
          simp [hab, he.1, he.2, hnev, hunk, hmemL, ex, ey, gx3, gy3]
        have eR : isCovariantWith env (m + 1) [] (Ty.func p1 r1) (Ty.inter bx byy) =
            (.all [(isCovariantWith env ((Ty.func p1 r1).size + bx.size) [] (Ty.func p1 r1) bx).1,
                   (isCovariantWith env ((Ty.func p1 r1).size + byy.size) [] (Ty.func p1 r1) byy).1],
             (isCovariantWith env ((Ty.func p1 r1).size + bx.size) [] (Ty.func p1 r1) bx).2.merge
               (isCovariantWith env ((Ty.func p1 r1).size + byy.size) [] (Ty.func p1 r1) byy).2) := by
          rw [isCovariantWith]
          simp [hab, he.1, he.2, hnev, hunk, fx, fy, gx3, gy3]
        rw [eL, eR]
        refine ⟨rfl, ?_, ?_, ?_⟩ <;> simp [gx1, gx2, gx3, gy1, gy2, gy3]
      | func p2 r2 =>
        have hx : p2.size + p1.size < (Ty.func p1 r1).size + (Ty.func p2 r2).size := by
          simp only [Ty.size]
          have := TyPack.packSize_pos r1
          have := TyPack.packSize_pos r2
          omega
        have hy : r1.size + r2.size < (Ty.func p1 r1).size + (Ty.func p2 r2).size := by
          simp only [Ty.size]
          have := TyPack.packSize_pos p1
          have := TyPack.packSize_pos p2
          omega
        obtain ⟨ex, -, -, -⟩ := (IH f (by omega)).2 env ((Ty.func p1 r1, Ty.func p2 r2) :: seen) p2 p1
          (by omega) (seenGuard_push hguard hx)
        obtain ⟨ey, -, -, -⟩ := (IH f (by omega)).2 env ((Ty.func p1 r1, Ty.func p2 r2) :: seen) r1 r2
          (by omega) (seenGuard_push hguard hy)
        obtain ⟨fx, -, -, -⟩ := (IH m (by omega)).2 env [(Ty.func p1 r1, Ty.func p2 r2)] p2 p1
          (by omega) (seenGuard_push (seenGuard_nil _) hx)
        obtain ⟨fy, -, -, -⟩ := (IH m (by omega)).2 env [(Ty.func p1 r1, Ty.func p2 r2)] r1 r2
          (by omega) (seenGuard_push (seenGuard_nil _) hy)
        obtain ⟨-, gx1, gx2, gx3⟩ := (IH (p2.size + p1.size) (by omega)).2 env [] p2 p1
          le_rfl (seenGuard_nil _)
        obtain ⟨-, gy1, gy2, gy3⟩ := (IH (r1.size + r2.size) (by omega)).2 env [] r1 r2
          le_rfl (seenGuard_nil _)
        have eL : isCovariantWith env (f + 1) seen (Ty.func p1 r1) (Ty.func p2 r2) =
            (((packIsCovariantWith env (p2.size + p1.size) [] p2 p1).1.withFlippedVariance.withBothComponent
                .args).andAlso
              ((packIsCovariantWith env (r1.size + r2.size) [] r1 r2).1.withBothComponent .rets),
             (packIsCovariantWith env (p2.size + p1.size) [] p2 p1).2.merge
               (packIsCovariantWith env (r1.size + r2.size) [] r1 r2).2) := by
          rw [isCovariantWith]
          simp [hab, he.1, he.2, hnev, hunk, hmemL, ex, ey, gx3, gy3]
        have eR : isCovariantWith env (m + 1) [] (Ty.func p1 r1) (Ty.func p2 r2) =
            (((packIsCovariantWith env (p2.size + p1.size) [] p2 p1).1.withFlippedVariance.withBothComponent
                .args).andAlso
              ((packIsCovariantWith env (r1.size + r2.size) [] r1 r2).1.withBothComponent .rets),
             (packIsCovariantWith env (p2.size + p1.size) [] p2 p1).2.merge
               (packIsCovariantWith env (r1.size + r2.size) [] r1 r2).2) := by
          rw [isCovariantWith]
          simp [hab, he.1, he.2, hnev, hunk, fx, fy, gx3, gy3]
        rw [eL, eR]
        refine ⟨rfl, ?_, ?_, ?_⟩ <;> simp [gx1, gx2, gx3, gy1, gy2, gy3]
      | prim q =>
        simp [isCovariantWith, hab, he.1, he.2, hnev, hunk, hmemL, apply_ite]
      | singleton sw =>
        simp [isCovariantWith, hab, he.1, he.2, hnev, hunk, hmemL, apply_ite]
      | generic g =>
        simp [isCovariantWith, hab, he.1, he.2, hnev, hunk, hmemL, apply_ite]
    | generic g =>
      cases b with
      | union bx byy =>
        have hx : (Ty.generic g).size + bx.size < (Ty.generic g).size + (Ty.union bx byy).size := by
          simp only [Ty.size]
          omega
        have hy : (Ty.generic g).size + byy.size < (Ty.generic g).size + (Ty.union bx byy).size := by
          simp only [Ty.size]
          omega
        obtain ⟨ex, -, -, -⟩ := (IH f (by omega)).1 env ((Ty.generic g, Ty.union bx byy) :: seen) (Ty.generic g) bx
          (by omega) (seenGuard_push hguard hx)
        obtain ⟨ey, -, -, -⟩ := (IH f (by omega)).1 env ((Ty.generic g, Ty.union bx byy) :: seen) (Ty.generic g) byy
          (by omega) (seenGuard_push hguard hy)
        obtain ⟨fx, -, -, -⟩ := (IH m (by omega)).1 env [(Ty.generic g, Ty.union bx byy)] (Ty.generic g) bx
          (by omega) (seenGuard_push (seenGuard_nil _) hx)
        obtain ⟨fy, -, -, -⟩ := (IH m (by omega)).1 env [(Ty.generic g, Ty.union bx byy)] (Ty.generic g) byy
          (by omega) (seenGuard_push (seenGuard_nil _) hy)
        obtain ⟨-, gx1, gx2, gx3⟩ := (IH ((Ty.generic g).size + bx.size) (by omega)).1 env [] (Ty.generic g) bx
          le_rfl (seenGuard_nil _)
        obtain ⟨-, gy1, gy2, gy3⟩ := (IH ((Ty.generic g).size + byy.size) (by omega)).1 env [] (Ty.generic g) byy
          le_rfl (seenGuard_nil _)
        have eL : isCovariantWith env (f + 1) seen (Ty.generic g) (Ty.union bx byy) =
            (.any [(isCovariantWith env ((Ty.generic g).size + bx.size) [] (Ty.generic g) bx).1,
                   (isCovariantWith env ((Ty.generic g).size + byy.size) [] (Ty.generic g) byy).1],
             (isCovariantWith env ((Ty.generic g).size + bx.size) [] (Ty.generic g) bx).2.merge
               (isCovariantWith env ((Ty.generic g).size + byy.size) [] (Ty.generic g) byy).2) := by
          rw [isCovariantWith]
          simp [hab, he.1, he.2, hnev, hunk, hmemL, ex, ey, gx3, gy3]
        have eR : isCovariantWith env (m + 1) [] (Ty.generic g) (Ty.union bx byy) =
            (.any [(isCovariantWith env ((Ty.generic g).size + bx.size) [] (Ty.generic g) bx).1,
                   (isCovariantWith env ((Ty.generic g).size + byy.size) [] (Ty.generic g) byy).1],
             (isCovariantWith env ((Ty.generic g).size + bx.size) [] (Ty.generic g) bx).2.merge
               (isCovariantWith env ((Ty.generic g).size + byy.size) [] (Ty.generic g) byy).2) := by
          rw [isCovariantWith]
          simp [hab, he.1, he.2, hnev, hunk, fx, fy, gx3, gy3]
        rw [eL, eR]
        refine ⟨rfl, ?_, ?_, ?_⟩ <;> simp [gx1, gx2, gx3, gy1, gy2, gy3]
      | inter bx byy =>
        have hx : (Ty.generic g).size + bx.size < (Ty.generic g).size + (Ty.inter bx byy).size := by
          simp only [Ty.size]
          omega
        have hy : (Ty.generic g).size + byy.size < (Ty.generic g).size + (Ty.inter bx byy).size := by
          simp only [Ty.size]
          omega
        obtain ⟨ex, -, -, -⟩ := (IH f (by omega)).1 env ((Ty.generic g, Ty.inter bx byy) :: seen) (Ty.generic g) bx
          (by omega) (seenGuard_push hguard hx)
        obtain ⟨ey, -, -, -⟩ := (IH f (by omega)).1 env ((Ty.generic g, Ty.inter bx byy) :: seen) (Ty.generic g) byy
          (by omega) (seenGuard_push hguard hy)
        obtain ⟨fx, -, -, -⟩ := (IH m (by omega)).1 env [(Ty.generic g, Ty.inter bx byy)] (Ty.generic g) bx
          (by omega) (seenGuard_push (seenGuard_nil _) hx)
        obtain ⟨fy, -, -, -⟩ := (IH m (by omega)).1 env [(Ty.generic g, Ty.inter bx byy)] (Ty.generic g) byy
          (by omega) (seenGuard_push (seenGuard_nil _) hy)
        obtain ⟨-, gx1, gx2, gx3⟩ := (IH ((Ty.generic g).size + bx.size) (by omega)).1 env [] (Ty.generic g) bx
          le_rfl (seenGuard_nil _)
        obtain ⟨-, gy1, gy2, gy3⟩ := (IH ((Ty.generic g).size + byy.size) (by omega)).1 env [] (Ty.generic g) byy
          le_rfl (seenGuard_nil _)
        have eL : isCovariantWith env (f + 1) seen (Ty.generic g) (Ty.inter bx byy) =
            (.all [(isCovariantWith env ((Ty.generic g).size + bx.size) [] (Ty.generic g) bx).1,
                   (isCovariantWith env ((Ty.generic g).size + byy.size) [] (Ty.generic g) byy).1],
             (isCovariantWith env ((Ty.generic g).size + bx.size) [] (Ty.generic g) bx).2.merge
               (isCovariantWith env ((Ty.generic g).size + byy.size) [] (Ty.generic g) byy).2) := by
          rw [isCovariantWith]
          simp [hab, he.1, he.2, hnev, hunk, hmemL, ex, ey, gx3, gy3]
        have eR : isCovariantWith env (m + 1) [] (Ty.generic g) (Ty.inter bx byy) =
            (.all [(isCovariantWith env ((Ty.generic g).size + bx.size) [] (Ty.generic g) bx).1,
                   (isCovariantWith env ((Ty.generic g).size + byy.size) [] (Ty.generic g) byy).1],
             (isCovariantWith env ((Ty.generic g).size + bx.size) [] (Ty.generic g) bx).2.merge
               (isCovariantWith env ((Ty.generic g).size + byy.size) [] (Ty.generic g) byy).2) := by
          rw [isCovariantWith]
          simp [hab, he.1, he.2, hnev, hunk, fx, fy, gx3, gy3]
        rw [eL, eR]
        refine ⟨rfl, ?_, ?_, ?_⟩ <;> simp [gx1, gx2, gx3, gy1, gy2, gy3]
      | prim q =>
        simp [isCovariantWith, hab, he.1, he.2, hnev, hunk, hmemL, apply_ite]
      | singleton sw =>
        simp [isCovariantWith, hab, he.1, he.2, hnev, hunk, hmemL, apply_ite]
      | func fp fr =>
        simp [isCovariantWith, hab, he.1, he.2, hnev, hunk, hmemL, apply_ite]
      | generic g2 =>
        simp [isCovariantWith, hab, he.1, he.2, hnev, hunk, hmemL, apply_ite]
  · intro env seen P Q hfuel hguard
    obtain ⟨f, rfl⟩ : ∃ f, fuel = f + 1 :=
      ⟨fuel - 1, by have := TyPack.packSize_pos P; have := TyPack.packSize_pos Q; omega⟩
    obtain ⟨m, hm⟩ : ∃ m, P.size + Q.size = m + 1 :=
      ⟨P.size + Q.size - 1, by have := TyPack.packSize_pos P; omega⟩
    rw [hm]
    cases P with
    | empty =>
      cases Q with
      | empty =>
      simp [packIsCovariantWith]
      | cons u us =>
      simp [packIsCovariantWith]
      | variadic w =>
      simp [packIsCovariantWith]
    | cons t ts =>
      cases Q with
      | empty =>
      simp [packIsCovariantWith]
      | cons u us =>
      have hx : t.size + u.size < (TyPack.cons t ts).size + (TyPack.cons u us).size := by
        simp only [Ty.size, TyPack.size]
        omega
      have hy : (ts).size + (us).size < (TyPack.cons t ts).size + (TyPack.cons u us).size := by
        simp only [Ty.size, TyPack.size]
        have := Ty.size_pos t
        omega
      obtain ⟨ex, -, -, -⟩ := (IH f (by omega)).1 env seen t u
        (by omega) (seenGuard_mono hguard (le_of_lt hx))
      obtain ⟨ey, -, -, -⟩ := (IH f (by omega)).2 env seen (ts) (us)
        (by omega) (seenGuard_mono hguard (le_of_lt hy))
      obtain ⟨fx, -, -, -⟩ := (IH m (by omega)).1 env [] t u
        (by omega) (seenGuard_nil _)
      obtain ⟨fy, -, -, -⟩ := (IH m (by omega)).2 env [] (ts) (us)
        (by omega) (seenGuard_nil _)
      obtain ⟨-, gx1, gx2, gx3⟩ := (IH (t.size + u.size) (by omega)).1 env [] t u
        le_rfl (seenGuard_nil _)
      obtain ⟨-, gy1, gy2, gy3⟩ := (IH ((ts).size + (us).size) (by omega)).2 env [] (ts) (us)
        le_rfl (seenGuard_nil _)
      have eL : packIsCovariantWith env (f + 1) seen (TyPack.cons t ts) (TyPack.cons u us) =
          ((isCovariantWith env (t.size + u.size) [] t u).1.andAlso
            (packIsCovariantWith env ((ts).size + (us).size) [] (ts) (us)).1,
           (isCovariantWith env (t.size + u.size) [] t u).2.merge
             (packIsCovariantWith env ((ts).size + (us).size) [] (ts) (us)).2) := by
        rw [packIsCovariantWith]
        simp [ex, ey, gx3, gy3]
      have eR : packIsCovariantWith env (m + 1) [] (TyPack.cons t ts) (TyPack.cons u us) =
          ((isCovariantWith env (t.size + u.size) [] t u).1.andAlso
            (packIsCovariantWith env ((ts).size + (us).size) [] (ts) (us)).1,
           (isCovariantWith env (t.size + u.size) [] t u).2.merge
             (packIsCovariantWith env ((ts).size + (us).size) [] (ts) (us)).2) := by
        rw [packIsCovariantWith]
        simp [fx, fy, gx3, gy3]
      rw [eL, eR]
      refine ⟨rfl, ?_, ?_, ?_⟩ <;> simp [gx1, gx2, gx3, gy1, gy2, gy3]
      | variadic v =>
      have hx : t.size + v.size < (TyPack.cons t ts).size + (TyPack.variadic v).size := by
        simp only [Ty.size, TyPack.size]
        omega
      have hy : (ts).size + (TyPack.variadic v).size < (TyPack.cons t ts).size + (TyPack.variadic v).size := by
        simp only [Ty.size, TyPack.size]
        have := Ty.size_pos t
        omega
      obtain ⟨ex, -, -, -⟩ := (IH f (by omega)).1 env seen t v
        (by omega) (seenGuard_mono hguard (le_of_lt hx))
      obtain ⟨ey, -, -, -⟩ := (IH f (by omega)).2 env seen (ts) (TyPack.variadic v)
        (by omega) (seenGuard_mono hguard (le_of_lt hy))
      obtain ⟨fx, -, -, -⟩ := (IH m (by omega)).1 env [] t v
        (by omega) (seenGuard_nil _)
      obtain ⟨fy, -, -, -⟩ := (IH m (by omega)).2 env [] (ts) (TyPack.variadic v)
        (by omega) (seenGuard_nil _)
      obtain ⟨-, gx1, gx2, gx3⟩ := (IH (t.size + v.size) (by omega)).1 env [] t v
        le_rfl (seenGuard_nil _)
      obtain ⟨-, gy1, gy2, gy3⟩ := (IH ((ts).size + (TyPack.variadic v).size) (by omega)).2 env [] (ts) (TyPack.variadic v)
        le_rfl (seenGuard_nil _)
      have eL : packIsCovariantWith env (f + 1) seen (TyPack.cons t ts) (TyPack.variadic v) =
          ((isCovariantWith env (t.size + v.size) [] t v).1.andAlso
            (packIsCovariantWith env ((ts).size + (TyPack.variadic v).size) [] (ts) (TyPack.variadic v)).1,
           (isCovariantWith env (t.size + v.size) [] t v).2.merge
             (packIsCovariantWith env ((ts).size + (TyPack.variadic v).size) [] (ts) (TyPack.variadic v)).2) := by
        rw [packIsCovariantWith]
        simp [ex, ey, gx3, gy3]
      have eR : packIsCovariantWith env (m + 1) [] (TyPack.cons t ts) (TyPack.variadic v) =
          ((isCovariantWith env (t.size + v.size) [] t v).1.andAlso
            (packIsCovariantWith env ((ts).size + (TyPack.variadic v).size) [] (ts) (TyPack.variadic v)).1,
           (isCovariantWith env (t.size + v.size) [] t v).2.merge
             (packIsCovariantWith env ((ts).size + (TyPack.variadic v).size) [] (ts) (TyPack.variadic v)).2) := by
        rw [packIsCovariantWith]
        simp [fx, fy, gx3, gy3]
      rw [eL, eR]
      refine ⟨rfl, ?_, ?_, ?_⟩ <;> simp [gx1, gx2, gx3, gy1, gy2, gy3]
    | variadic v =>
      cases Q with
      | empty =>
      simp [packIsCovariantWith]
      | cons u us =>
      have hx : v.size + u.size < (TyPack.variadic v).size + (TyPack.cons u us).size := by
        simp only [Ty.size, TyPack.size]
        omega
      have hy : (TyPack.variadic v).size + (us).size < (TyPack.variadic v).size + (TyPack.cons u us).size := by
        simp only [Ty.size, TyPack.size]
        have := Ty.size_pos v
        omega
      obtain ⟨ex, -, -, -⟩ := (IH f (by omega)).1 env seen v u
        (by omega) (seenGuard_mono hguard (le_of_lt hx))
      obtain ⟨ey, -, -, -⟩ := (IH f (by omega)).2 env seen (TyPack.variadic v) (us)
        (by omega) (seenGuard_mono hguard (le_of_lt hy))
      obtain ⟨fx, -, -, -⟩ := (IH m (by omega)).1 env [] v u
        (by omega) (seenGuard_nil _)
      obtain ⟨fy, -, -, -⟩ := (IH m (by omega)).2 env [] (TyPack.variadic v) (us)
        (by omega) (seenGuard_nil _)
      obtain ⟨-, gx1, gx2, gx3⟩ := (IH (v.size + u.size) (by omega)).1 env [] v u
        le_rfl (seenGuard_nil _)
      obtain ⟨-, gy1, gy2, gy3⟩ := (IH ((TyPack.variadic v).size + (us).size) (by omega)).2 env [] (TyPack.variadic v) (us)
        le_rfl (seenGuard_nil _)
      have eL : packIsCovariantWith env (f + 1) seen (TyPack.variadic v) (TyPack.cons u us) =
          ((isCovariantWith env (v.size + u.size) [] v u).1.andAlso
            (packIsCovariantWith env ((TyPack.variadic v).size + (us).size) [] (TyPack.variadic v) (us)).1,
           (isCovariantWith env (v.size + u.size) [] v u).2.merge
             (packIsCovariantWith env ((TyPack.variadic v).size + (us).size) [] (TyPack.variadic v) (us)).2) := by
        rw [packIsCovariantWith]
        simp [ex, ey, gx3, gy3]
      have eR : packIsCovariantWith env (m + 1) [] (TyPack.variadic v) (TyPack.cons u us) =
          ((isCovariantWith env (v.size + u.size) [] v u).1.andAlso
            (packIsCovariantWith env ((TyPack.variadic v).size + (us).size) [] (TyPack.variadic v) (us)).1,
           (isCovariantWith env (v.size + u.size) [] v u).2.merge
             (packIsCovariantWith env ((TyPack.variadic v).size + (us).size) [] (TyPack.variadic v) (us)).2) := by
        rw [packIsCovariantWith]
        simp [fx, fy, gx3, gy3]
      rw [eL, eR]
      refine ⟨rfl, ?_, ?_, ?_⟩ <;> simp [gx1, gx2, gx3, gy1, gy2, gy3]
      | variadic w =>
      have hx : v.size + w.size < (TyPack.variadic v).size + (TyPack.variadic w).size := by
        simp only [TyPack.size]
        omega
      obtain ⟨ex, -, -, -⟩ := (IH f (by omega)).1 env seen v w
        (by omega) (seenGuard_mono hguard (le_of_lt hx))
      obtain ⟨fx, -, -, -⟩ := (IH m (by omega)).1 env [] v w
        (by omega) (seenGuard_nil _)
      obtain ⟨-, g1, g2, g3⟩ := (IH (v.size + w.size) (by omega)).1 env [] v w
        le_rfl (seenGuard_nil _)
      have eL : packIsCovariantWith env (f + 1) seen (TyPack.variadic v) (TyPack.variadic w) =
          isCovariantWith env (v.size + w.size) [] v w := by
        rw [packIsCovariantWith]
        simp [ex, g3]
      have eR : packIsCovariantWith env (m + 1) [] (TyPack.variadic v) (TyPack.variadic w) =
          isCovariantWith env (v.size + w.size) [] v w := by
        rw [packIsCovariantWith]
        simp [fx, g3]
      rw [eL, eR]
      exact ⟨rfl, g1, g2, g3⟩

/-- Reflexivity at pack level: a pack compares successfully with itself under
any sufficient budget, through the identical-id short-circuit on its element
types. -/
theorem packRefl : ∀ (P : TyPack) (env : SubtypingEnvironment) (fuel : Nat)
    (seen : List (Ty × Ty)), P.size + P.size ≤ fuel →
    (packIsCovariantWith env fuel seen P P).1.isSubtype = true ∧
    (packIsCovariantWith env fuel seen P P).1.normalizationTooComplex = false
  | .empty, env, fuel, seen, h => by
    obtain ⟨f, rfl⟩ : ∃ f, fuel = f + 1 := ⟨fuel - 1, by simp [TyPack.size] at h; omega⟩
    simp [packIsCovariantWith]
  | .cons t ts, env, fuel, seen, h => by
    simp only [TyPack.size] at h
    obtain ⟨f, rfl⟩ : ∃ f, fuel = f + 1 :=
      ⟨fuel - 1, by have := Ty.size_pos t; have := TyPack.packSize_pos ts; omega⟩
    rw [packIsCovariantWith]
    have ht : isCovariantWith env f seen t t = (.success, {}) := by
      obtain ⟨f2, rfl⟩ : ∃ f2, f = f2 + 1 :=
        ⟨f - 1, by have := Ty.size_pos t; have := TyPack.packSize_pos ts; omega⟩
      rw [isCovariantWith]
      simp
    have hts := packRefl ts env f seen (by have := Ty.size_pos t; omega)
    simp [ht, hts.1, hts.2]
  | .variadic v, env, fuel, seen, h => by
    simp only [TyPack.size] at h
    obtain ⟨f, rfl⟩ : ∃ f, fuel = f + 1 := ⟨fuel - 1, by have := Ty.size_pos v; omega⟩
    rw [packIsCovariantWith]
    have hv : isCovariantWith env f seen v v = (.success, {}) := by
      obtain ⟨f2, rfl⟩ : ∃ f2, f = f2 + 1 := ⟨f - 1, by have := Ty.size_pos v; omega⟩
      rw [isCovariantWith]
      simp
    simp [hv]
termination_by P _ _ _ _ => P.size
decreasing_by
  simp only [TyPack.size]
  omega

/-- The `any`/`error` short-circuit on the super side succeeds for any budget
of at least one step. -/
theorem anyOrError_super_isSubtype (env : SubtypingEnvironment) (fuel : Nat)
    (seen : List (Ty × Ty)) (a c : Ty) (hc : isAnyOrError c = true) :
    (isCovariantWith env (fuel + 1) seen a c).1.isSubtype = true := by
  rw [isCovariantWith]
  by_cases hab : a = c
  · simp [hab]
  · simp [hab, hc]

/-- The `any`/`error` short-circuit on the sub side succeeds for any budget of
at least one step. -/
theorem anyOrError_sub_isSubtype (env : SubtypingEnvironment) (fuel : Nat)
    (seen : List (Ty × Ty)) (a c : Ty) (ha : isAnyOrError a = true) :
    (isCovariantWith env (fuel + 1) seen a c).1.isSubtype = true := by
  rw [isCovariantWith]
  by_cases hab : a = c
  · simp [hab]
  · simp [hab, ha]

/-- The `unknown`-on-the-right short-circuit succeeds for any budget of at
least one step. -/
theorem unknown_super_isSubtype (env : SubtypingEnvironment) (fuel : Nat)
    (seen : List (Ty × Ty)) (a : Ty) :
    (isCovariantWith env (fuel + 1) seen a (.prim .unknown)).1.isSubtype = true := by
  rw [isCovariantWith]
  by_cases hab : a = Ty.prim .unknown
  · simp [hab]
  · by_cases he : (isAnyOrError a || isAnyOrError (Ty.prim .unknown)) = true
    · simp [hab, he]
    · by_cases hnev : a = Ty.prim .never
      · simp [hab, he, hnev]
      · simp [hab, he, hnev]

theorem unionContains_self (t : Ty) : unionContains t t := by
  cases t <;> simp [unionContains]

theorem unionContains_union : ∀ (s x y : Ty), unionContains s (.union x y) →
    unionContains s x ∧ unionContains s y
  | .union a b, x, y, h => by
    rcases h with heq | h | h
    · rw [heq]
      exact ⟨Or.inr (Or.inl (unionContains_self x)), Or.inr (Or.inr (unionContains_self y))⟩
    · obtain ⟨h1, h2⟩ := unionContains_union a x y h
      exact ⟨Or.inr (Or.inl h1), Or.inr (Or.inl h2)⟩
    · obtain ⟨h1, h2⟩ := unionContains_union b x y h
      exact ⟨Or.inr (Or.inr h1), Or.inr (Or.inr h2)⟩
  | .prim p, x, y, h => by simp [unionContains] at h
  | .singleton sv, x, y, h => by simp [unionContains] at h
  | .inter a b, x, y, h => by simp [unionContains] at h
  | .func a b, x, y, h => by simp [unionContains] at h
  | .generic g, x, y, h => by simp [unionContains] at h
termination_by s _ _ _ => s.size
decreasing_by
  all_goals simp only [Ty.size]
  all_goals omega

/-- A type is a subtype of any union tree that contains it as a leaf, for any
sufficient budget, any environment and any seen set whose pairs are all
strictly larger than the query. -/
theorem unionContains_isSubtype (fuel : Nat) : ∀ (env : SubtypingEnvironment)
    (seen : List (Ty × Ty)) (sub super : Ty),
    sub.size + super.size ≤ fuel → seenGuard (sub.size + super.size) seen →
    unionContains super sub →
    (isCovariantWith env fuel seen sub super).1.isSubtype = true := by
  induction fuel using Nat.strong_induction_on with
  | _ fuel IH =>
  intro env seen sub super hfuel hguard huc
  obtain ⟨f, rfl⟩ : ∃ f, fuel = f + 1 :=
    ⟨fuel - 1, by have := Ty.size_pos sub; have := Ty.size_pos super; omega⟩
  rw [isCovariantWith]
  by_cases hab : sub = super
  · simp [hab]
  by_cases he : (isAnyOrError sub || isAnyOrError super) = true
  · simp [hab, he]
  by_cases hnev : sub = Ty.prim .never
  · simp [hab, he, hnev]
  by_cases hunk : super = Ty.prim .unknown
  · simp [hab, he, hnev, hunk]
  have hmem : (sub, super) ∉ seen := seenGuard_not_mem hguard
  cases sub with
  | union x y =>
    obtain ⟨h1, h2⟩ := unionContains_union super x y huc
    have hx : x.size + super.size < (Ty.union x y).size + super.size := by
      simp only [Ty.size]
      have := Ty.size_pos y
      omega
    have hy : y.size + super.size < (Ty.union x y).size + super.size := by
      simp only [Ty.size]
      have := Ty.size_pos x
      omega
    have e1 := IH f (by omega) env ((Ty.union x y, super) :: seen) x super
      (by omega) (seenGuard_push hguard hx) h1
    have e2 := IH f (by omega) env ((Ty.union x y, super) :: seen) y super
      (by omega) (seenGuard_push hguard hy) h2
    have n1 := ((engine_stable f).1 env ((Ty.union x y, super) :: seen) x super
      (by omega) (seenGuard_push hguard hx)).2.2.2
    have n2 := ((engine_stable f).1 env ((Ty.union x y, super) :: seen) y super
      (by omega) (seenGuard_push hguard hy)).2.2.2
    simp [hab, he, hnev, hunk, hmem, e1, e2, n1, n2]
  | prim p =>
    cases super with
    | union bx byy =>
      simp only [unionContains] at huc
      have hx : (Ty.prim p).size + bx.size < (Ty.prim p).size + (Ty.union bx byy).size := by
        simp only [Ty.size]
        have := Ty.size_pos byy
        omega
      have hy : (Ty.prim p).size + byy.size < (Ty.prim p).size + (Ty.union bx byy).size := by
        simp only [Ty.size]
        have := Ty.size_pos bx
        omega
      have n1 := ((engine_stable f).1 env ((Ty.prim p, Ty.union bx byy) :: seen) (Ty.prim p) bx
        (by omega) (seenGuard_push hguard hx)).2.2.2
      have n2 := ((engine_stable f).1 env ((Ty.prim p, Ty.union bx byy) :: seen) (Ty.prim p) byy
        (by omega) (seenGuard_push hguard hy)).2.2.2
      rcases huc with heq | h | h
      · exact absurd heq.symm hab
      · have e1 := IH f (by omega) env ((Ty.prim p, Ty.union bx byy) :: seen) (Ty.prim p) bx
          (by omega) (seenGuard_push hguard hx) h
        simp [hab, he, hnev, hunk, hmem, e1, n1, n2]
      · have e1 := IH f (by omega) env ((Ty.prim p, Ty.union bx byy) :: seen) (Ty.prim p) byy
          (by omega) (seenGuard_push hguard hy) h
        simp [hab, he, hnev, hunk, hmem, e1, n1, n2]
    | prim q =>
      simp only [unionContains] at huc
      exact absurd huc.symm hab
    | singleton sw =>
      simp only [unionContains] at huc
      exact absurd huc.symm hab
    | inter bx byy =>
      simp only [unionContains] at huc
      exact absurd huc.symm hab
    | func fp fr =>
      simp only [unionContains] at huc
      exact absurd huc.symm hab
    | generic g2 =>
      simp only [unionContains] at huc
      exact absurd huc.symm hab
  | singleton sv =>
    cases super with
    | union bx byy =>
      simp only [unionContains] at huc
      have hx : (Ty.singleton sv).size + bx.size < (Ty.singleton sv).size + (Ty.union bx byy).size := by
        simp only [Ty.size]
        have := Ty.size_pos byy
        omega
      have hy : (Ty.singleton sv).size + byy.size < (Ty.singleton sv).size + (Ty.union bx byy).size := by
        simp only [Ty.size]
        have := Ty.size_pos bx
        omega
      have n1 := ((engine_stable f).1 env ((Ty.singleton sv, Ty.union bx byy) :: seen) (Ty.singleton sv) bx
        (by omega) (seenGuard_push hguard hx)).2.2.2
      have n2 := ((engine_stable f).1 env ((Ty.singleton sv, Ty.union bx byy) :: seen) (Ty.singleton sv) byy
        (by omega) (seenGuard_push hguard hy)).2.2.2
      rcases huc with heq | h | h
      · exact absurd heq.symm hab
      · have e1 := IH f (by omega) env ((Ty.singleton sv, Ty.union bx byy) :: seen) (Ty.singleton sv) bx
          (by omega) (seenGuard_push hguard hx) h
        simp [hab, he, hnev, hunk, hmem, e1, n1, n2]
      · have e1 := IH f (by omega) env ((Ty.singleton sv, Ty.union bx byy) :: seen) (Ty.singleton sv) byy
          (by omega) (seenGuard_push hguard hy) h
        simp [hab, he, hnev, hunk, hmem, e1, n1, n2]
    | prim q =>
      simp only [unionContains] at huc
      exact absurd huc.symm hab
    | singleton sw =>
      simp only [unionContains] at huc
      exact absurd huc.symm hab
    | inter bx byy =>
      simp only [unionContains] at huc
      exact absurd huc.symm hab
    | func fp fr =>
      simp only [unionContains] at huc
      exact absurd huc.symm hab
    | generic g2 =>
      simp only [unionContains] at huc
      exact absurd huc.symm hab
  | inter a b =>
    cases super with
    | union bx byy =>
      simp only [unionContains] at huc
      have hx : (Ty.inter a b).size + bx.size < (Ty.inter a b).size + (Ty.union bx byy).size := by
        simp only [Ty.size]
        have := Ty.size_pos byy
        omega
      have hy : (Ty.inter a b).size + byy.size < (Ty.inter a b).size + (Ty.union bx byy).size := by
        simp only [Ty.size]
        have := Ty.size_pos bx
        omega
      have n1 := ((engine_stable f).1 env ((Ty.inter a b, Ty.union bx byy) :: seen) (Ty.inter a b) bx
        (by omega) (seenGuard_push hguard hx)).2.2.2
      have n2 := ((engine_stable f).1 env ((Ty.inter a b, Ty.union bx byy) :: seen) (Ty.inter a b) byy
        (by omega) (seenGuard_push hguard hy)).2.2.2
      rcases huc with heq | h | h
      · exact absurd heq.symm hab
      · have e1 := IH f (by omega) env ((Ty.inter a b, Ty.union bx byy) :: seen) (Ty.inter a b) bx
          (by omega) (seenGuard_push hguard hx) h
        simp [hab, he, hnev, hunk, hmem, e1, n1, n2]
      · have e1 := IH f (by omega) env ((Ty.inter a b, Ty.union bx byy) :: seen) (Ty.inter a b) byy
          (by omega) (seenGuard_push hguard hy) h
        simp [hab, he, hnev, hunk, hmem, e1, n1, n2]
    | prim q =>
      simp only [unionContains] at huc
      exact absurd huc.symm hab
    | singleton sw =>
      simp only [unionContains] at huc
      exact absurd huc.symm hab
    | inter bx byy =>
      simp only [unionContains] at huc
      exact absurd huc.symm hab
    | func fp fr =>
      simp only [unionContains] at huc
      exact absurd huc.symm hab
    | generic g2 =>
      simp only [unionContains] at huc
      exact absurd huc.symm hab
  | func fp2 fr2 =>
    cases super with
    | union bx byy =>
      simp only [unionContains] at huc
      have hx : (Ty.func fp2 fr2).size + bx.size < (Ty.func fp2 fr2).size + (Ty.union bx byy).size := by
        simp only [Ty.size]
        have := Ty.size_pos byy
        omega
      have hy : (Ty.func fp2 fr2).size + byy.size < (Ty.func fp2 fr2).size + (Ty.union bx byy).size := by
        simp only [Ty.size]
        have := Ty.size_pos bx
        omega
      have n1 := ((engine_stable f).1 env ((Ty.func fp2 fr2, Ty.union bx byy) :: seen) (Ty.func fp2 fr2) bx
        (by omega) (seenGuard_push hguard hx)).2.2.2
      have n2 := ((engine_stable f).1 env ((Ty.func fp2 fr2, Ty.union bx byy) :: seen) (Ty.func fp2 fr2) byy
        (by omega) (seenGuard_push hguard hy)).2.2.2
      rcases huc with heq | h | h
      · exact absurd heq.symm hab
      · have e1 := IH f (by omega) env ((Ty.func fp2 fr2, Ty.union bx byy) :: seen) (Ty.func fp2 fr2) bx
          (by omega) (seenGuard_push hguard hx) h
        simp [hab, he, hnev, hunk, hmem, e1, n1, n2]
      · have e1 := IH f (by omega) env ((Ty.func fp2 fr2, Ty.union bx byy) :: seen) (Ty.func fp2 fr2) byy
          (by omega) (seenGuard_push hguard hy) h
        simp [hab, he, hnev, hunk, hmem, e1, n1, n2]
    | prim q =>
      simp only [unionContains] at huc
      exact absurd huc.symm hab
    | singleton sw =>
      simp only [unionContains] at huc
      exact absurd huc.symm hab
    | inter bx byy =>
      simp only [unionContains] at huc
      exact absurd huc.symm hab
    | func fp fr =>
      simp only [unionContains] at huc
      exact absurd huc.symm hab
    | generic g2 =>
      simp only [unionContains] at huc
      exact absurd huc.symm hab
  | generic g =>
    cases super with
    | union bx byy =>
      simp only [unionContains] at huc
      have hx : (Ty.generic g).size + bx.size < (Ty.generic g).size + (Ty.union bx byy).size := by
        simp only [Ty.size]
        have := Ty.size_pos byy
        omega
      have hy : (Ty.generic g).size + byy.size < (Ty.generic g).size + (Ty.union bx byy).size := by
        simp only [Ty.size]
        have := Ty.size_pos bx
        omega
      have n1 := ((engine_stable f).1 env ((Ty.generic g, Ty.union bx byy) :: seen) (Ty.generic g) bx
        (by omega) (seenGuard_push hguard hx)).2.2.2
      have n2 := ((engine_stable f).1 env ((Ty.generic g, Ty.union bx byy) :: seen) (Ty.generic g) byy
        (by omega) (seenGuard_push hguard hy)).2.2.2
      rcases huc with heq | h | h
      · exact absurd heq.symm hab
      · have e1 := IH f (by omega) env ((Ty.generic g, Ty.union bx byy) :: seen) (Ty.generic g) bx
          (by omega) (seenGuard_push hguard hx) h
        simp [hab, he, hnev, hunk, hmem, e1, n1, n2]
      · have e1 := IH f (by omega) env ((Ty.generic g, Ty.union bx byy) :: seen) (Ty.generic g) byy
          (by omega) (seenGuard_push hguard hy) h
        simp [hab, he, hnev, hunk, hmem, e1, n1, n2]
    | prim q =>
      simp only [unionContains] at huc
      exact absurd huc.symm hab
    | singleton sw =>
      simp only [unionContains] at huc
      exact absurd huc.symm hab
    | inter bx byy =>
      simp only [unionContains] at huc
      exact absurd huc.symm hab
    | func fp fr =>
      simp only [unionContains] at huc
      exact absurd huc.symm hab
    | generic g2 =>
      simp only [unionContains] at huc
      exact absurd huc.symm hab

/-- C7: for every type `a`, `isSubtype(any, a)` and `isSubtype(a, any)` both
succeed, and likewise with `error` in place of `any`: the presence of `any`
or `error` on either side short-circuits the judgement to success. -/
theorem isSubtype_any_absorbs (a : Ty) :
    (Subtyping.fresh.isSubtype (.prim .any) a).1.isSubtype = true ∧
    (Subtyping.fresh.isSubtype a (.prim .any)).1.isSubtype = true ∧
    (Subtyping.fresh.isSubtype (.prim .err) a).1.isSubtype = true ∧
    (Subtyping.fresh.isSubtype a (.prim .err)).1.isSubtype = true := by
  refine ⟨?_, ?_, ?_, ?_⟩ <;>
    simp only [Subtyping.isSubtype, Subtyping.fresh, Subtyping.stepBudget]
  · obtain ⟨m, hm⟩ : ∃ m, (Ty.prim PrimKind.any).size + a.size = m + 1 :=
      ⟨a.size, by simp only [Ty.size]; omega⟩
    rw [hm]
    exact anyOrError_sub_isSubtype {} m [] _ a rfl
  · obtain ⟨m, hm⟩ : ∃ m, a.size + (Ty.prim PrimKind.any).size = m + 1 :=
      ⟨a.size, by simp only [Ty.size]⟩
    rw [hm]
    exact anyOrError_super_isSubtype {} m [] a _ rfl
  · obtain ⟨m, hm⟩ : ∃ m, (Ty.prim PrimKind.err).size + a.size = m + 1 :=
      ⟨a.size, by simp only [Ty.size]; omega⟩
    rw [hm]
    exact anyOrError_sub_isSubtype {} m [] _ a rfl
  · obtain ⟨m, hm⟩ : ∃ m, a.size + (Ty.prim PrimKind.err).size = m + 1 :=
      ⟨a.size, by simp only [Ty.size]⟩
    rw [hm]
    exact anyOrError_super_isSubtype {} m [] a _ rfl

/-- C2: for every union `a|b` on the subtype side and every type `c`,
`isSubtype(a|b, c)` succeeds exactly when `isSubtype(a, c)` and
`isSubtype(b, c)` both succeed: the engine takes the conjunction over the
union's members. -/
theorem isSubtype_union_sub_characterisation (a b c : Ty) :
    (Subtyping.fresh.isSubtype (.union a b) c).1.isSubtype = true ↔
      ((Subtyping.fresh.isSubtype a c).1.isSubtype = true ∧
       (Subtyping.fresh.isSubtype b c).1.isSubtype = true) := by
  simp only [Subtyping.isSubtype, Subtyping.fresh, Subtyping.stepBudget]
  obtain ⟨m, hm⟩ : ∃ m, (Ty.union a b).size + c.size = m + 1 :=
    ⟨(Ty.union a b).size + c.size - 1, by have := Ty.size_pos c; simp only [Ty.size]; omega⟩
  rw [hm]
  by_cases hab : Ty.union a b = c
  · subst hab
    have r1 := unionContains_isSubtype (a.size + (Ty.union a b).size) {} [] a (Ty.union a b)
      le_rfl (seenGuard_nil _) (Or.inr (Or.inl (unionContains_self a)))
    have r2 := unionContains_isSubtype (b.size + (Ty.union a b).size) {} [] b (Ty.union a b)
      le_rfl (seenGuard_nil _) (Or.inr (Or.inr (unionContains_self b)))
    rw [isCovariantWith]
    simp [r1, r2]
  by_cases he : (isAnyOrError (Ty.union a b) || isAnyOrError c) = true
  · have hc : isAnyOrError c = true := by rwa [isAnyOrError_union, Bool.false_or] at he
    obtain ⟨m1, hm1⟩ : ∃ m1, a.size + c.size = m1 + 1 :=
      ⟨a.size + c.size - 1, by have := Ty.size_pos a; have := Ty.size_pos c; omega⟩
    obtain ⟨m2, hm2⟩ : ∃ m2, b.size + c.size = m2 + 1 :=
      ⟨b.size + c.size - 1, by have := Ty.size_pos b; have := Ty.size_pos c; omega⟩
    rw [hm1, hm2]
    have r1 := anyOrError_super_isSubtype {} m1 [] a c hc
    have r2 := anyOrError_super_isSubtype {} m2 [] b c hc
    rw [isCovariantWith]
    simp [hab, hc, r1, r2]
  by_cases hunk : c = Ty.prim PrimKind.unknown
  · subst hunk
    obtain ⟨m1, hm1⟩ : ∃ m1, a.size + (Ty.prim PrimKind.unknown).size = m1 + 1 :=
      ⟨a.size, by simp only [Ty.size]⟩
    obtain ⟨m2, hm2⟩ : ∃ m2, b.size + (Ty.prim PrimKind.unknown).size = m2 + 1 :=
      ⟨b.size, by simp [Ty.size]⟩
    rw [hm1, hm2]
    have r1 := unknown_super_isSubtype {} m1 [] a
    have r2 := unknown_super_isSubtype {} m2 [] b
    rw [isCovariantWith]
    simp [hab, he, r1, r2]
  · have hsz1 : a.size + c.size < (Ty.union a b).size + c.size := by
      simp only [Ty.size]
      have := Ty.size_pos b
      omega
    have hsz2 : b.size + c.size < (Ty.union a b).size + c.size := by
      simp only [Ty.size]
      have := Ty.size_pos a
      omega
    have hstab1 := ((engine_stable m).1 {} [(Ty.union a b, c)] a c
      (by omega) (seenGuard_push (seenGuard_nil _) hsz1)).1
    have hstab2 := ((engine_stable m).1 {} [(Ty.union a b, c)] b c
      (by omega) (seenGuard_push (seenGuard_nil _) hsz2)).1
    have n1 := ((engine_stable (a.size + c.size)).1 {} [] a c le_rfl (seenGuard_nil _)).2.2.2
    have n2 := ((engine_stable (b.size + c.size)).1 {} [] b c le_rfl (seenGuard_nil _)).2.2.2
    rw [isCovariantWith]
    simp [hab, he, hunk, hstab1, hstab2, n1, n2, Bool.and_eq_true]

/-- C1: the subtype judgement holds of `(P1 → R1)` against `(P2 → R2)` exactly
when the parameter packs satisfy `isSubtype(P2, P1)` (contravariant) and the
return packs satisfy `isSubtype(R1, R2)` (covariant). -/
theorem isSubtype_function_variance (P1 R1 P2 R2 : TyPack) :
    (Subtyping.fresh.isSubtype (.func P1 R1) (.func P2 R2)).1.isSubtype = true ↔
      ((Subtyping.fresh.isSubtypePack P2 P1).1.isSubtype = true ∧
       (Subtyping.fresh.isSubtypePack R1 R2).1.isSubtype = true) := by
  simp only [Subtyping.isSubtype, Subtyping.isSubtypePack, Subtyping.fresh, Subtyping.stepBudget]
  obtain ⟨m, hm⟩ : ∃ m, (Ty.func P1 R1).size + (Ty.func P2 R2).size = m + 1 :=
    ⟨(Ty.func P1 R1).size + (Ty.func P2 R2).size - 1, by
      have := Ty.size_pos (Ty.func P1 R1)
      have := Ty.size_pos (Ty.func P2 R2)
      omega⟩
  rw [hm]
  by_cases hab : Ty.func P1 R1 = Ty.func P2 R2
  · injection hab with hp hr
    subst hp
    subst hr
    have r1 := packRefl P1 {} (P1.size + P1.size) [] le_rfl
    have r2 := packRefl R1 {} (R1.size + R1.size) [] le_rfl
    rw [isCovariantWith]
    simp [r1, r2]
  · have hsz1 : P2.size + P1.size < (Ty.func P1 R1).size + (Ty.func P2 R2).size := by
      simp only [Ty.size]
      have := TyPack.packSize_pos R1
      have := TyPack.packSize_pos R2
      omega
    have hsz2 : R1.size + R2.size < (Ty.func P1 R1).size + (Ty.func P2 R2).size := by
      simp only [Ty.size]
      have := TyPack.packSize_pos P1
      have := TyPack.packSize_pos P2
      omega
    have hstab1 := ((engine_stable m).2 {} [(Ty.func P1 R1, Ty.func P2 R2)] P2 P1
      (by omega) (seenGuard_push (seenGuard_nil _) hsz1)).1
    have hstab2 := ((engine_stable m).2 {} [(Ty.func P1 R1, Ty.func P2 R2)] R1 R2
      (by omega) (seenGuard_push (seenGuard_nil _) hsz2)).1
    have n1 := ((engine_stable (P2.size + P1.size)).2 {} [] P2 P1 le_rfl (seenGuard_nil _)).2.2.2
    have n2 := ((engine_stable (R1.size + R2.size)).2 {} [] R1 R2 le_rfl (seenGuard_nil _)).2.2.2
    rw [isCovariantWith]
    simp [hab, isAnyOrError_func, hstab1, hstab2, n1, n2, Bool.and_eq_true]

theorem isAnyOrError_prim_false {p : PrimKind} (h1 : p ≠ .any) (h2 : p ≠ .err) :
    isAnyOrError (.prim p) = false := by
  cases p <;> simp_all [isAnyOrError]

/-- C5: at a query entry (canonical budget, empty seen set), the result is
cacheable exactly when no generic bound was recorded during the derivation;
binding a flexible generic records the bound into the environment's
lower/upper-bound set and yields a non-cacheable success; and a result with
`isCacheable = false` is never written to the persistent result cache. -/
theorem isCacheable_generic_discipline :
    (∀ (env : SubtypingEnvironment) (a b : Ty),
      (isCovariantWith env (a.size + b.size) [] a b).1.isCacheable = true ↔
        (isCovariantWith env (a.size + b.size) [] a b).2.binds = []) ∧
    (∀ (env : SubtypingEnvironment) (g : Nat) (t : Ty), env.isFlexible g = true →
      Subtyping.bindGeneric env (.generic g) t = some (env.recordUpperBound g t) ∧
      t ∈ ((env.recordUpperBound g t).boundsOf g).upperBound) ∧
    (∀ (env : SubtypingEnvironment) (g : Nat) (t : Ty), env.isFlexible g = true →
      (∀ g2, t ≠ .generic g2) →
      Subtyping.bindGeneric env t (.generic g) = some (env.recordLowerBound g t) ∧
      t ∈ ((env.recordLowerBound g t).boundsOf g).lowerBound) ∧
    (∀ (env : SubtypingEnvironment) (fuel : Nat) (seen : List (Ty × Ty)) (g : Nat)
      (p : PrimKind), env.isFlexible g = true → p ≠ .any → p ≠ .err → p ≠ .unknown →
      (Ty.generic g, Ty.prim p) ∉ seen →
      isCovariantWith env (fuel + 1) seen (.generic g) (.prim p) =
        ({ SubtypingResult.success with isCacheable := false },
         { binds := [(g, Ty.prim p, true)] })) ∧
    (∀ (s : Subtyping) (a b : Ty) (e : (Ty × Ty) × SubtypingResult),
      e ∈ (s.isSubtype a b).2.resultCache → e ∈ s.resultCache ∨ e.2.isCacheable = true) := by
  refine ⟨?_, ?_, ?_, ?_, ?_⟩
  · intro env a b
    have h := ((engine_stable (a.size + b.size)).1 env [] a b le_rfl (seenGuard_nil _)).2.1
    rw [h]
    simp
  · intro env g t hflex
    refine ⟨by simp [Subtyping.bindGeneric, hflex], ?_⟩
    rw [boundsOf_recordUpperBound env g t hflex]
    exact List.mem_cons_self _ _
  · intro env g t hflex ht
    refine ⟨?_, ?_⟩
    · cases t with
      | generic g2 => exact absurd rfl (ht g2)
      | prim p => simp [Subtyping.bindGeneric, hflex]
      | singleton sv => simp [Subtyping.bindGeneric, hflex]
      | union x y => simp [Subtyping.bindGeneric, hflex]
      | inter x y => simp [Subtyping.bindGeneric, hflex]
      | func fp fr => simp [Subtyping.bindGeneric, hflex]
    · rw [boundsOf_recordLowerBound env g t hflex]
      exact List.mem_cons_self _ _
  · intro env fuel seen g p hflex hpany hperr hpunk hseen
    have hae : isAnyOrError (Ty.prim p) = false := isAnyOrError_prim_false hpany hperr
    rw [isCovariantWith]
    simp [hae, isAnyOrError_generic, hpunk, hseen, hflex]
  · intro s a b e he
    simp only [Subtyping.isSubtype] at he
    by_cases hc : (isCovariantWith {} (s.stepBudget (a.size + b.size)) [] a b).1.isCacheable = true
    · simp only [hc, if_true] at he
      rcases List.mem_cons.1 he with rfl | he
      · exact Or.inr hc
      · exact Or.inl he
    · simp only [hc] at he
      rw [if_neg (by simp [hc])] at he
      exact Or.inl he

/-- C6: encountering a `(sub, super)` pair already in the seen set returns
success with `isCacheable = false` (first conjunct, for any pair that reaches
the seen check); the membership test is on the ordered pair, not on either id
individually: a query whose ids both occur in the seen set, but not as this
ordered pair, proceeds structurally (second conjunct). -/
theorem seenTypes_pair_coinduction :
    (∀ (env : SubtypingEnvironment) (fuel : Nat) (seen : List (Ty × Ty)) (a b : Ty),
      (a, b) ∈ seen → a ≠ b → isAnyOrError a = false → isAnyOrError b = false →
      a ≠ .prim .never → b ≠ .prim .unknown →
      isCovariantWith env (fuel + 1) seen a b =
        ({ SubtypingResult.success with isCacheable := false }, { seenHit := true })) ∧
    (isCovariantWith {} 3 [(Ty.prim .number, Ty.prim .boolean), (Ty.prim .string, Ty.prim .string)]
      (.prim .number) (.prim .string)).1.isSubtype = false := by
  constructor
  · intro env fuel seen a b hmem hab ha hb hnev hunk
    rw [isCovariantWith]
    simp [hab, ha, hb, hnev, hunk, hmem]
  · decide

/-- C6 witness: a concrete seen pair short-circuits to success with
`isCacheable = false`. -/
theorem seenTypes_pair_coinduction_witness :
    isCovariantWith {} 9 [(Ty.prim .number, Ty.prim .string)]
      (.prim .number) (.prim .string) =
      ({ SubtypingResult.success with isCacheable := false }, { seenHit := true }) :=
  seenTypes_pair_coinduction.1 {} 8 [(Ty.prim .number, Ty.prim .string)]
    (.prim .number) (.prim .string) (by simp) (by decide) (by decide) (by decide)
    (by decide) (by decide)

/-- Unwinding on expiry, type level: a result carrying the
`normalizationTooComplex` flag is exactly the bare too-complex result — every
rule discards partial outcomes when a recursive result reports expiry, so no
partial result escapes (spec section 5). -/
theorem unwind_tooComplex_ty : ∀ (env : SubtypingEnvironment) (fuel : Nat)
    (seen : List (Ty × Ty)) (a b : Ty),
    (isCovariantWith env fuel seen a b).1.normalizationTooComplex = true →
    isCovariantWith env fuel seen a b = (tooComplexResult, {}) := by
  intro env fuel seen a b hn
  cases fuel with
  | zero => rfl
  | succ f =>
    rw [isCovariantWith] at hn
    by_cases hab : a = b
    · simp [hab] at hn
    by_cases he : (isAnyOrError a || isAnyOrError b) = true
    · simp [hab, he] at hn
    by_cases hnev : a = Ty.prim .never
    · simp [hab, he, hnev] at hn
    by_cases hunk : b = Ty.prim .unknown
    · simp [hab, he, hnev, hunk] at hn
    by_cases hmem : (a, b) ∈ seen
    · simp [hab, he, hnev, hunk, hmem] at hn
    cases a with
    | union x y =>
      by_cases h1 : (isCovariantWith env f ((Ty.union x y, b) :: seen) x b).1.normalizationTooComplex = true
      · rw [isCovariantWith]
        simp [hab, he, hnev, hunk, hmem, h1]
      · by_cases h2 : (isCovariantWith env f ((Ty.union x y, b) :: seen) y b).1.normalizationTooComplex = true
        · rw [isCovariantWith]
          simp [hab, he, hnev, hunk, hmem, h1, h2]
        · simp [hab, he, hnev, hunk, hmem, h1, h2] at hn
    | prim p =>
      cases b with
      | union bx byy =>
        by_cases h1 : (isCovariantWith env f ((Ty.prim p, Ty.union bx byy) :: seen) (Ty.prim p) bx).1.normalizationTooComplex = true
        · rw [isCovariantWith]
          simp [hab, he, hnev, hunk, hmem, h1]
        · by_cases h2 : (isCovariantWith env f ((Ty.prim p, Ty.union bx byy) :: seen) (Ty.prim p) byy).1.normalizationTooComplex = true
          · rw [isCovariantWith]
            simp [hab, he, hnev, hunk, hmem, h1, h2]
          · simp [hab, he, hnev, hunk, hmem, h1, h2] at hn
      | inter bx byy =>
        by_cases h1 : (isCovariantWith env f ((Ty.prim p, Ty.inter bx byy) :: seen) (Ty.prim p) bx).1.normalizationTooComplex = true
        · rw [isCovariantWith]
          simp [hab, he, hnev, hunk, hmem, h1]
        · by_cases h2 : (isCovariantWith env f ((Ty.prim p, Ty.inter bx byy) :: seen) (Ty.prim p) byy).1.normalizationTooComplex = true
          · rw [isCovariantWith]
            simp [hab, he, hnev, hunk, hmem, h1, h2]
          · simp [hab, he, hnev, hunk, hmem, h1, h2] at hn
      | prim q =>
        simp [hab, he, hnev, hunk, hmem] at hn
      | singleton sw =>
        simp [hab, he, hnev, hunk, hmem] at hn
      | func fp fr =>
        simp [hab, he, hnev, hunk, hmem] at hn
      | generic g =>
        simp [hab, he, hnev, hunk, hmem, apply_ite] at hn
    | singleton sv =>
      cases b with
      | union bx byy =>
        by_cases h1 : (isCovariantWith env f ((Ty.singleton sv, Ty.union bx byy) :: seen) (Ty.singleton sv) bx).1.normalizationTooComplex = true
        · rw [isCovariantWith]
          simp [hab, he, hnev, hunk, hmem, h1]
        · by_cases h2 : (isCovariantWith env f ((Ty.singleton sv, Ty.union bx byy) :: seen) (Ty.singleton sv) byy).1.normalizationTooComplex = true
          · rw [isCovariantWith]
            simp [hab, he, hnev, hunk, hmem, h1, h2]
          · simp [hab, he, hnev, hunk, hmem, h1, h2] at hn
      | inter bx byy =>
        by_cases h1 : (isCovariantWith env f ((Ty.singleton sv, Ty.inter bx byy) :: seen) (Ty.singleton sv) bx).1.normalizationTooComplex = true
        · rw [isCovariantWith]
          simp [hab, he, hnev, hunk, hmem, h1]
        · by_cases h2 : (isCovariantWith env f ((Ty.singleton sv, Ty.inter bx byy) :: seen) (Ty.singleton sv) byy).1.normalizationTooComplex = true
          · rw [isCovariantWith]
            simp [hab, he, hnev, hunk, hmem, h1, h2]
          · simp [hab, he, hnev, hunk, hmem, h1, h2] at hn
      | prim q =>
        simp [hab, he, hnev, hunk, hmem] at hn
      | singleton sw =>
        simp [hab, he, hnev, hunk, hmem] at hn
      | func fp fr =>
        simp [hab, he, hnev, hunk, hmem] at hn
      | generic g =>
        simp [hab, he, hnev, hunk, hmem, apply_ite] at hn
    | inter x y =>
      cases b with
      | union bx byy =>
        by_cases h1 : (isCovariantWith env f ((Ty.inter x y, Ty.union bx byy) :: seen) (Ty.inter x y) bx).1.normalizationTooComplex = true
        · rw [isCovariantWith]
          simp [hab, he, hnev, hunk, hmem, h1]
        · by_cases h2 : (isCovariantWith env f ((Ty.inter x y, Ty.union bx byy) :: seen) (Ty.inter x y) byy).1.normalizationTooComplex = true
          · rw [isCovariantWith]
            simp [hab, he, hnev, hunk, hmem, h1, h2]
          · simp [hab, he, hnev, hunk, hmem, h1, h2] at hn
      | inter bx byy =>
        by_cases h1 : (isCovariantWith env f ((Ty.inter x y, Ty.inter bx byy) :: seen) x (Ty.inter bx byy)).1.normalizationTooComplex = true
        · rw [isCovariantWith]
          simp [hab, he, hnev, hunk, hmem, h1]
        · by_cases h2 : (isCovariantWith env f ((Ty.inter x y, Ty.inter bx byy) :: seen) y (Ty.inter bx byy)).1.normalizationTooComplex = true
          · rw [isCovariantWith]
            simp [hab, he, hnev, hunk, hmem, h1, h2]
          · simp [hab, he, hnev, hunk, hmem, h1, h2] at hn
      | prim q =>
        by_cases h1 : (isCovariantWith env f ((Ty.inter x y, Ty.prim q) :: seen) x (Ty.prim q)).1.normalizationTooComplex = true
        · rw [isCovariantWith]
          simp [hab, he, hnev, hunk, hmem, h1]
        · by_cases h2 : (isCovariantWith env f ((Ty.inter x y, Ty.prim q) :: seen) y (Ty.prim q)).1.normalizationTooComplex = true
          · rw [isCovariantWith]
            simp [hab, he, hnev, hunk, hmem, h1, h2]
          · simp [hab, he, hnev, hunk, hmem, h1, h2] at hn
      | singleton sw =>
        by_cases h1 : (isCovariantWith env f ((Ty.inter x y, Ty.singleton sw) :: seen) x (Ty.singleton sw)).1.normalizationTooComplex = true
        · rw [isCovariantWith]
          simp [hab, he, hnev, hunk, hmem, h1]
        · by_cases h2 : (isCovariantWith env f ((Ty.inter x y, Ty.singleton sw) :: seen) y (Ty.singleton sw)).1.normalizationTooComplex = true
          · rw [isCovariantWith]
            simp [hab, he, hnev, hunk, hmem, h1, h2]
          · simp [hab, he, hnev, hunk, hmem, h1, h2] at hn
      | func fp fr =>
        by_cases h1 : (isCovariantWith env f ((Ty.inter x y, Ty.func fp fr) :: seen) x (Ty.func fp fr)).1.normalizationTooComplex = true
        · rw [isCovariantWith]
          simp [hab, he, hnev, hunk, hmem, h1]
        · by_cases h2 : (isCovariantWith env f ((Ty.inter x y, Ty.func fp fr) :: seen) y (Ty.func fp fr)).1.normalizationTooComplex = true
          · rw [isCovariantWith]
            simp [hab, he, hnev, hunk, hmem, h1, h2]
          · simp [hab, he, hnev, hunk, hmem, h1, h2] at hn
      | generic g =>
        by_cases h1 : (isCovariantWith env f ((Ty.inter x y, Ty.generic g) :: seen) x (Ty.generic g)).1.normalizationTooComplex = true
        · rw [isCovariantWith]
          simp [hab, he, hnev, hunk, hmem, h1]
        · by_cases h2 : (isCovariantWith env f ((Ty.inter x y, Ty.generic g) :: seen) y (Ty.generic g)).1.normalizationTooComplex = true
          · rw [isCovariantWith]
            simp [hab, he, hnev, hunk, hmem, h1, h2]
          · simp [hab, he, hnev, hunk, hmem, h1, h2] at hn
    | func p1 r1 =>
      cases b with
      | union bx byy =>
        by_cases h1 : (isCovariantWith env f ((Ty.func p1 r1, Ty.union bx byy) :: seen) (Ty.func p1 r1) bx).1.normalizationTooComplex = true
        · rw [isCovariantWith]
          simp [hab, he, hnev, hunk, hmem, h1]
        · by_cases h2 : (isCovariantWith env f ((Ty.func p1 r1, Ty.union bx byy) :: seen) (Ty.func p1 r1) byy).1.normalizationTooComplex = true
          · rw [isCovariantWith]
            simp [hab, he, hnev, hunk, hmem, h1, h2]
          · simp [hab, he, hnev, hunk, hmem, h1, h2] at hn
      | inter bx byy =>
        by_cases h1 : (isCovariantWith env f ((Ty.func p1 r1, Ty.inter bx byy) :: seen) (Ty.func p1 r1) bx).1.normalizationTooComplex = true
        · rw [isCovariantWith]
          simp [hab, he, hnev, hunk, hmem, h1]
        · by_cases h2 : (isCovariantWith env f ((Ty.func p1 r1, Ty.inter bx byy) :: seen) (Ty.func p1 r1) byy).1.normalizationTooComplex = true
          · rw [isCovariantWith]
            simp [hab, he, hnev, hunk, hmem, h1, h2]
          · simp [hab, he, hnev, hunk, hmem, h1, h2] at hn
      | func p2 r2 =>
        by_cases h1 : (packIsCovariantWith env f ((Ty.func p1 r1, Ty.func p2 r2) :: seen) p2 p1).1.normalizationTooComplex = true
        · rw [isCovariantWith]
          simp [hab, he, hnev, hunk, hmem, h1]
        · by_cases h2 : (packIsCovariantWith env f ((Ty.func p1 r1, Ty.func p2 r2) :: seen) r1 r2).1.normalizationTooComplex = true
          · rw [isCovariantWith]
            simp [hab, he, hnev, hunk, hmem, h1, h2]
          · simp [hab, he, hnev, hunk, hmem, h1, h2] at hn
      | prim q =>
        simp [hab, he, hnev, hunk, hmem] at hn
      | singleton sw =>
        simp [hab, he, hnev, hunk, hmem] at hn
      | generic g =>
        simp [hab, he, hnev, hunk, hmem, apply_ite] at hn
    | generic g =>
      cases b with
      | union bx byy =>
        by_cases h1 : (isCovariantWith env f ((Ty.generic g, Ty.union bx byy) :: seen) (Ty.generic g) bx).1.normalizationTooComplex = true
        · rw [isCovariantWith]
          simp [hab, he, hnev, hunk, hmem, h1]
        · by_cases h2 : (isCovariantWith env f ((Ty.generic g, Ty.union bx byy) :: seen) (Ty.generic g) byy).1.normalizationTooComplex = true
          · rw [isCovariantWith]
            simp [hab, he, hnev, hunk, hmem, h1, h2]
          · simp [hab, he, hnev, hunk, hmem, h1, h2] at hn
      | inter bx byy =>
        by_cases h1 : (isCovariantWith env f ((Ty.generic g, Ty.inter bx byy) :: seen) (Ty.generic g) bx).1.normalizationTooComplex = true
        · rw [isCovariantWith]
          simp [hab, he, hnev, hunk, hmem, h1]
        · by_cases h2 : (isCovariantWith env f ((Ty.generic g, Ty.inter bx byy) :: seen) (Ty.generic g) byy).1.normalizationTooComplex = true
          · rw [isCovariantWith]
            simp [hab, he, hnev, hunk, hmem, h1, h2]
          · simp [hab, he, hnev, hunk, hmem, h1, h2] at hn
      | prim q =>
        simp [hab, he, hnev, hunk, hmem, apply_ite] at hn
      | singleton sw =>
        simp [hab, he, hnev, hunk, hmem, apply_ite] at hn
      | func fp fr =>
        simp [hab, he, hnev, hunk, hmem, apply_ite] at hn
      | generic g2 =>
        simp [hab, he, hnev, hunk, hmem, apply_ite] at hn

/-- Unwinding on expiry, pack level. -/
theorem unwind_tooComplex_pack : ∀ (env : SubtypingEnvironment) (fuel : Nat)
    (seen : List (Ty × Ty)) (P Q : TyPack),
    (packIsCovariantWith env fuel seen P Q).1.normalizationTooComplex = true →
    packIsCovariantWith env fuel seen P Q = (tooComplexResult, {}) := by
  intro env fuel seen P Q hn
  cases fuel with
  | zero => rfl
  | succ f =>
    cases P with
    | empty =>
      cases Q with
      | empty =>
        simp [packIsCovariantWith] at hn
      | cons u us =>
        simp [packIsCovariantWith] at hn
      | variadic w =>
        simp [packIsCovariantWith] at hn
    | cons t ts =>
      cases Q with
      | empty =>
        simp [packIsCovariantWith] at hn
      | cons u us =>
        rw [packIsCovariantWith] at hn
        by_cases h1 : (isCovariantWith env f seen t u).1.normalizationTooComplex = true
        · rw [packIsCovariantWith]
          simp [h1]
        · by_cases h2 : (packIsCovariantWith env f seen ts us).1.normalizationTooComplex = true
          · rw [packIsCovariantWith]
            simp [h1, h2]
          · simp [h1, h2] at hn
      | variadic v =>
        rw [packIsCovariantWith] at hn
        by_cases h1 : (isCovariantWith env f seen t v).1.normalizationTooComplex = true
        · rw [packIsCovariantWith]
          simp [h1]
        · by_cases h2 : (packIsCovariantWith env f seen ts (TyPack.variadic v)).1.normalizationTooComplex = true
          · rw [packIsCovariantWith]
            simp [h1, h2]
          · simp [h1, h2] at hn
    | variadic v =>
      cases Q with
      | empty =>
        simp [packIsCovariantWith] at hn
      | cons u us =>
        rw [packIsCovariantWith] at hn
        by_cases h1 : (isCovariantWith env f seen v u).1.normalizationTooComplex = true
        · rw [packIsCovariantWith]
          simp [h1]
        · by_cases h2 : (packIsCovariantWith env f seen (TyPack.variadic v) us).1.normalizationTooComplex = true
          · rw [packIsCovariantWith]
            simp [h1, h2]
          · simp [h1, h2] at hn
      | variadic w =>
        rw [packIsCovariantWith] at hn
        by_cases h1 : (isCovariantWith env f seen v w).1.normalizationTooComplex = true
        · rw [packIsCovariantWith]
          simp [h1]
        · simp [h1] at hn

/-- C8 counterexample: the claim says a `seenTypes` recursion-bound hit yields
`isSubtype = false` and `normalizationTooComplex = true`, but a query whose
pair is already in the seen set returns success with
`normalizationTooComplex = false`. -/
theorem seenTypes_hit_is_success_not_tooComplex :
    (isCovariantWith {} 3 [(Ty.prim .number, Ty.prim .string)]
      (.prim .number) (.prim .string)).1.isSubtype = true ∧
    (isCovariantWith {} 3 [(Ty.prim .number, Ty.prim .string)]
      (.prim .number) (.prim .string)).1.normalizationTooComplex = false := by
  decide

/-- C8 (amended): whenever the external step counter is exceeded — at entry
(zero budget) or anywhere during the recursion (the result carries
`normalizationTooComplex = true`) — the engine unwinds to exactly the
non-subtype too-complex result (`isSubtype = false`,
`normalizationTooComplex = true`, `isCacheable = false`), at the type level
and at the pack level, and a top-level query whose result reports expiry
returns that non-subtype result and does not write the persistent cache. -/
theorem stepLimit_tooComplex :
    (∀ (env : SubtypingEnvironment) (seen : List (Ty × Ty)) (a b : Ty),
      isCovariantWith env 0 seen a b = (tooComplexResult, {})) ∧
    (∀ (env : SubtypingEnvironment) (fuel : Nat) (seen : List (Ty × Ty)) (a b : Ty),
      (isCovariantWith env fuel seen a b).1.normalizationTooComplex = true →
      isCovariantWith env fuel seen a b = (tooComplexResult, {})) ∧
    (∀ (env : SubtypingEnvironment) (fuel : Nat) (seen : List (Ty × Ty)) (P Q : TyPack),
      (packIsCovariantWith env fuel seen P Q).1.normalizationTooComplex = true →
      packIsCovariantWith env fuel seen P Q = (tooComplexResult, {})) ∧
    (∀ (s : Subtyping) (a b : Ty),
      (s.isSubtype a b).1.normalizationTooComplex = true →
      (s.isSubtype a b).1 = tooComplexResult ∧
      (s.isSubtype a b).2.resultCache = s.resultCache) := by
  refine ⟨?_, ?_, ?_, ?_⟩
  · intro env seen a b
    rfl
  · exact unwind_tooComplex_ty
  · exact unwind_tooComplex_pack
  · intro s a b hn
    simp only [Subtyping.isSubtype] at hn
    have h := unwind_tooComplex_ty {} (s.stepBudget (a.size + b.size)) [] a b hn
    constructor
    · simp [Subtyping.isSubtype, h]
    · simp [Subtyping.isSubtype, h, tooComplexResult]

/-- C8 witness: a nonzero budget that expires mid-derivation (budget 3 on
`number ≤ number | ((string | thread) | buffer)`; the second union branch
runs out) unwinds the whole query to the non-subtype too-complex result and
leaves the cache unchanged. -/
theorem stepLimit_tooComplex_witness :
    ((⟨some 3, []⟩ : Subtyping).isSubtype (.prim .number)
      (.union (.prim .number)
        (.union (.union (.prim .string) (.prim .thread)) (.prim .buffer)))).1
      = tooComplexResult ∧
    ((⟨some 3, []⟩ : Subtyping).isSubtype (.prim .number)
      (.union (.prim .number)
        (.union (.union (.prim .string) (.prim .thread)) (.prim .buffer)))).2.resultCache
      = [] :=
  stepLimit_tooComplex.2.2.2 ⟨some 3, []⟩ (.prim .number)
    (.union (.prim .number)
      (.union (.union (.prim .string) (.prim .thread)) (.prim .buffer))) (by decide)

/-- C9 counterexample: a failed query whose result carries no reasoning at
all, contradicting the claim that every `isSubtype = false` result carries at
least one reasoning triple (the header itself notes the set "may not be
present even if isSubtype is false"). -/
theorem falseResult_with_empty_reasoning :
    (Subtyping.fresh.isSubtype (.prim .number) (.prim .string)).1.isSubtype = false ∧
    (Subtyping.fresh.isSubtype (.prim .number) (.prim .string)).1.reasoning = [] := by
  decide

/-- C9 (amended): a result with `isSubtype = false` need not carry any
reasoning: every mismatched bare primitive comparison fails with an empty
reasoning set. -/
theorem primMismatch_false_without_reasoning (p q : PrimKind) (hpq : p ≠ q)
    (hpany : p ≠ .any) (hperr : p ≠ .err) (hqany : q ≠ .any) (hqerr : q ≠ .err)
    (hpnev : p ≠ .never) (hqunk : q ≠ .unknown) :
    (Subtyping.fresh.isSubtype (.prim p) (.prim q)).1.isSubtype = false ∧
    (Subtyping.fresh.isSubtype (.prim p) (.prim q)).1.reasoning = [] := by
  simp only [Subtyping.isSubtype, Subtyping.fresh, Subtyping.stepBudget]
  have hb : (Ty.prim p).size + (Ty.prim q).size = 1 + 1 := by simp [Ty.size]
  rw [hb]
  rw [isCovariantWith]
  have hab : ¬Ty.prim p = Ty.prim q := by simp [hpq]
  have ha := isAnyOrError_prim_false hpany hperr
  have hbq := isAnyOrError_prim_false hqany hqerr
  simp [hab, ha, hbq, hpnev, hqunk, hpq]

/-- C9 (amended) witness at `number ≤ boolean`. -/
theorem primMismatch_false_without_reasoning_witness :
    (Subtyping.fresh.isSubtype (.prim .number) (.prim .boolean)).1.isSubtype = false ∧
    (Subtyping.fresh.isSubtype (.prim .number) (.prim .boolean)).1.reasoning = [] :=
  primMismatch_false_without_reasoning .number .boolean (by decide) (by decide) (by decide)
    (by decide) (by decide) (by decide) (by decide)

/-- C4: when the type-family reducer reports a non-empty `blockedTypes` or
`blockedPacks` set, `handleTypeFamilyReductionResult` returns `never` in
place of the instance together with an `UninhabitedTypeFamily` diagnostic. -/
theorem handleTypeFamilyReductionResult_blocked (family : Ty)
    (result : FamilyGraphReductionResult)
    (h : result.blockedTypes ≠ [] ∨ result.blockedPacks ≠ []) :
    Subtyping.handleTypeFamilyReductionResult family result =
      (neverType, [.uninhabitedTypeFamily family]) := by
  have hl : result.blockedTypes.length ≠ 0 ∨ result.blockedPacks.length ≠ 0 := by
    rcases h with h | h
    · exact Or.inl (by simpa using h)
    · exact Or.inr (by simpa using h)
  rw [Subtyping.handleTypeFamilyReductionResult, if_pos hl]

/-- C4 witness: a single blocked type produces `never` plus the diagnostic. -/
theorem handleTypeFamilyReductionResult_blocked_witness :
    Subtyping.handleTypeFamilyReductionResult (.generic 0)
      { reducedTypes := [], blockedTypes := [Ty.prim .number], blockedPacks := [] } =
      (neverType, [.uninhabitedTypeFamily (.generic 0)]) :=
  handleTypeFamilyReductionResult_blocked (.generic 0)
    { reducedTypes := [], blockedTypes := [Ty.prim .number], blockedPacks := [] }
    (Or.inl (by decide))

/-- C10: when the reducer neither blocks nor lists the instance among its
reduced types, `handleTypeFamilyReductionResult` returns `never` with an
empty error vector: the instance is silently replaced by `never` with no
`UninhabitedTypeFamily` diagnostic. -/
theorem handleTypeFamilyReductionResult_unreduced (family : Ty)
    (result : FamilyGraphReductionResult)
    (h1 : result.blockedTypes = []) (h2 : result.blockedPacks = [])
    (h3 : result.reducedTypes.contains family = false) :
    Subtyping.handleTypeFamilyReductionResult family result = (neverType, []) := by
  have h3m : family ∉ result.reducedTypes := by simpa using h3
  simp [Subtyping.handleTypeFamilyReductionResult, h1, h2, h3m]

/-- C10 witness: an empty reduction result silently maps the instance to
`never`. -/
theorem handleTypeFamilyReductionResult_unreduced_witness :
    Subtyping.handleTypeFamilyReductionResult (.generic 0)
      { reducedTypes := [], blockedTypes := [], blockedPacks := [] } =
      (neverType, []) :=
  handleTypeFamilyReductionResult_unreduced (.generic 0)
    { reducedTypes := [], blockedTypes := [], blockedPacks := [] } rfl rfl (by decide)

theorem firstOkOverload_some (args : TyPack) : ∀ (cs : List Ty) (c : Ty),
    firstOkOverload args cs = some c →
    ∃ pre post, cs = pre ++ c :: post ∧ classifyOverload args c = .Ok ∧
      ∀ d ∈ pre, classifyOverload args d ≠ .Ok := by
  intro cs
  induction cs with
  | nil =>
    intro c h
    simp [firstOkOverload] at h
  | cons d ds ih =>
    intro c h
    rw [firstOkOverload] at h
    by_cases hd : classifyOverload args d = .Ok
    · rw [if_pos hd] at h
      obtain rfl : d = c := by injection h
      exact ⟨[], ds, rfl, hd, by simp⟩
    · rw [if_neg hd] at h
      obtain ⟨pre, post, heq, hok, hpre⟩ := ih c h
      refine ⟨d :: pre, post, by simp [heq], hok, ?_⟩
      intro e he
      rcases List.mem_cons.1 he with rfl | he
      · exact hd
      · exact hpre e he

theorem firstOkOverload_none (args : TyPack) : ∀ (cs : List Ty),
    firstOkOverload args cs = none → ∀ c ∈ cs, classifyOverload args c ≠ .Ok := by
  intro cs
  induction cs with
  | nil =>
    intro h c hc
    simp at hc
  | cons d ds ih =>
    intro h c hc
    rw [firstOkOverload] at h
    by_cases hd : classifyOverload args d = .Ok
    · rw [if_pos hd] at h
      exact absurd h (by simp)
    · rw [if_neg hd] at h
      rcases List.mem_cons.1 hc with rfl | hc
      · exact hd
      · exact ih h c hc

theorem bestFailure_ne_Ok (args : TyPack) (cs : List Ty) : bestFailure args cs ≠ .Ok := by
  rw [bestFailure]
  split
  · decide
  · split <;> decide

/-- C3: `selectOverload` tries the candidates in source order (the
intersection's element order, otherwise the single type), classifies each
with the four-way `Analysis`, and returns the first candidate classified
*Ok*; when none is *Ok* the outcome is never *Ok*. -/
theorem selectOverload_first_ok_wins (ty : Ty) (args : TyPack) :
    (∀ c, firstOkOverload args (candidates ty) = some c →
      selectOverload ty args = (.Ok, c) ∧
      ∃ pre post, candidates ty = pre ++ c :: post ∧ classifyOverload args c = .Ok ∧
        ∀ d ∈ pre, classifyOverload args d ≠ .Ok) ∧
    (firstOkOverload args (candidates ty) = none →
      (∀ c ∈ candidates ty, classifyOverload args c ≠ .Ok) ∧
      (selectOverload ty args).1 ≠ .Ok) := by
  constructor
  · intro c h
    exact ⟨by simp [selectOverload, h], firstOkOverload_some args _ c h⟩
  · intro h
    refine ⟨firstOkOverload_none args _ h, ?_⟩
    have hsel : selectOverload ty args = (bestFailure args (candidates ty), ty) := by
      simp [selectOverload, h]
    rw [hsel]
    exact bestFailure_ne_Ok args _

/-- C3 witness: spec scenario 5 — calling `f("hi")` against
`((number) → nil) & ((string) → number)` selects the second overload. -/
theorem selectOverload_first_ok_wins_witness :
    selectOverload
      (.inter (.func (.cons (.prim .number) .empty) (.cons (.prim .nilTy) .empty))
              (.func (.cons (.prim .string) .empty) (.cons (.prim .number) .empty)))
      (.cons (.singleton (.str "hi")) .empty) =
      (.Ok, .func (.cons (.prim .string) .empty) (.cons (.prim .number) .empty)) :=
  ((selectOverload_first_ok_wins
      (.inter (.func (.cons (.prim .number) .empty) (.cons (.prim .nilTy) .empty))
              (.func (.cons (.prim .string) .empty) (.cons (.prim .number) .empty)))
      (.cons (.singleton (.str "hi")) .empty)).1
    (.func (.cons (.prim .string) .empty) (.cons (.prim .number) .empty)) (by decide)).1

/-- C1 witness: `(number|boolean) → string ≤ number → string` through
contravariant parameters and covariant returns. -/
theorem isSubtype_function_variance_witness :
    (Subtyping.fresh.isSubtype
      (.func (.cons (.union (.prim .number) (.prim .boolean)) .empty)
        (.cons (.prim .string) .empty))
      (.func (.cons (.prim .number) .empty)
        (.cons (.prim .string) .empty))).1.isSubtype = true :=
  (isSubtype_function_variance
    (.cons (.union (.prim .number) (.prim .boolean)) .empty) (.cons (.prim .string) .empty)
    (.cons (.prim .number) .empty) (.cons (.prim .string) .empty)).mpr
    ⟨by decide, by decide⟩

/-- C2 witness: `"hi" | "bye" ≤ string` holds because both members do (spec
scenario 4). -/
theorem isSubtype_union_sub_characterisation_witness :
    (Subtyping.fresh.isSubtype
      (.union (.singleton (.str "hi")) (.singleton (.str "bye")))
      (.prim .string)).1.isSubtype = true :=
  (isSubtype_union_sub_characterisation (.singleton (.str "hi")) (.singleton (.str "bye"))
    (.prim .string)).mpr ⟨by decide, by decide⟩

/-- C5 witness: a flexible generic binds, records its upper bound, and forces
`isCacheable = false` with the bind on record. -/
theorem isCacheable_generic_discipline_witness :
    Subtyping.bindGeneric ⟨[(0, ⟨[], []⟩)]⟩ (.generic 0) (.prim .number) =
      some (SubtypingEnvironment.recordUpperBound ⟨[(0, ⟨[], []⟩)]⟩ 0 (.prim .number)) ∧
    isCovariantWith ⟨[(0, ⟨[], []⟩)]⟩ 5 [] (.generic 0) (.prim .number) =
      ({ SubtypingResult.success with isCacheable := false },
       { binds := [(0, Ty.prim .number, true)] }) := by
  constructor
  · exact (isCacheable_generic_discipline.2.1 ⟨[(0, ⟨[], []⟩)]⟩ 0 (.prim .number) (by decide)).1
  · exact isCacheable_generic_discipline.2.2.2.1 ⟨[(0, ⟨[], []⟩)]⟩ 4 [] 0 .number
      (by decide) (by decide) (by decide) (by decide) (by simp)

end Luau
